import Mathlib

/-!
Verification of the post-only execution bot against its design document.

The development shallowly embeds the program's core pure logic:
* `utils.py` quantization helpers (`round_to_step`, `round_up_to_step`),
* `signal_router.py` sliding-window spam arbiter (`SignalRouter`),
* `order_manager.py` pricing, sizing and control-flow skeletons
  (`maker_price`, `_remaining_to_target`, `_ensure_min_notional_qty`,
  `place_exit_orders`, `open_market`, `open_postonly_maker`,
  `execute_signal`).

Monetary quantities, prices and timestamps are modelled as exact
rationals (`ℚ`).  The source computes quantization over Python
`Decimal`, whose every arithmetic operation is rounded to the default
28-significant-digit context.  `round_to_step` below idealizes the two
divisions as exact rational division (for the reciprocal of the step
the subsequent `quantize(1, ROUND_DOWN)` discards everything past the
integer part, so the idealization agrees with the source there on all
realistic step sizes; the final descaling division, however, does not:
see `round_to_step_dec`, the context-faithful refinement, under which
idempotence fails).
Exchange interaction is modelled by passing the observed responses
(book snapshots, position snapshots, order-placement outcomes)
explicitly as function arguments; fallible calls return `Except` or
`Option`.
-/

namespace PostOnlyBot

/-- Truncation of a rational toward zero: the behaviour of
`Decimal.to_integral_value(rounding=ROUND_DOWN)` and of
`quantize(Decimal(1), rounding=ROUND_DOWN)` in `utils.py`. -/
def truncQ (x : ℚ) : ℤ :=
  if 0 ≤ x then ⌊x⌋ else ⌈x⌉

theorem truncQ_of_nonneg {x : ℚ} (h : 0 ≤ x) : truncQ x = ⌊x⌋ := by
  simp [truncQ, h]

theorem truncQ_intCast (n : ℤ) : truncQ (n : ℚ) = n := by
  unfold truncQ
  by_cases h : (0 : ℚ) ≤ (n : ℚ) <;> simp [h]

/-- Embedding of `utils.round_to_step`:

    quant = (1/s).quantize(1, ROUND_DOWN)
    return (v * quant).to_integral_value(ROUND_DOWN) / quant

`step == 0` is the defensive no-op of the source.  When `quant`
computes to `0` (step larger than 1) the source raises a decimal
division-by-zero error, modelled as `none`. -/
def round_to_step (value step : ℚ) : Option ℚ :=
  if step = 0 then some value
  else
    let quant : ℤ := truncQ (1 / step)
    if quant = 0 then none
    else some ((truncQ (value * quant) : ℚ) / (quant : ℚ))

/-- Embedding of `utils.round_up_to_step`: same scaling as
`round_to_step`, but if truncation lost a fractional part the scaled
integer is incremented by one before descaling. -/
def round_up_to_step (value step : ℚ) : Option ℚ :=
  if step = 0 then some value
  else
    let quant : ℤ := truncQ (1 / step)
    if quant = 0 then none
    else
      let scaled : ℚ := value * quant
      let floored : ℤ := truncQ scaled
      let adjusted : ℤ := if scaled = (floored : ℚ) then floored else floored + 1
      some ((adjusted : ℚ) / (quant : ℚ))

theorem round_to_step_zero (value : ℚ) : round_to_step value 0 = some value := by
  unfold round_to_step
  rw [if_pos rfl]

theorem round_to_step_none (value step : ℚ) (hs : step ≠ 0)
    (hq : truncQ (1 / step) = 0) : round_to_step value step = none := by
  unfold round_to_step
  rw [if_neg hs]
  simp only [hq, if_pos]

theorem round_to_step_eq (value step : ℚ) (hs : step ≠ 0)
    (hq : truncQ (1 / step) ≠ 0) :
    round_to_step value step
      = some (((truncQ (value * (truncQ (1 / step) : ℤ)) : ℤ) : ℚ)
          / ((truncQ (1 / step) : ℤ) : ℚ)) := by
  unfold round_to_step
  rw [if_neg hs]
  simp only [if_neg hq]

theorem one_div_one_div_nat (n : ℕ) (hn : 0 < n) :
    (1 : ℚ) / (1 / (n : ℚ)) = (n : ℚ) := by
  have hn' : ((n : ℚ)) ≠ 0 := by exact_mod_cast hn.ne'
  field_simp

/-- On reciprocal-of-integer steps `s = 1/n` the scaling factor used by
both rounding helpers is exactly `n`. -/
theorem quant_of_inv_nat (n : ℕ) (hn : 0 < n) :
    truncQ (1 / ((1 : ℚ) / (n : ℚ))) = (n : ℤ) := by
  rw [one_div_one_div_nat n hn]
  exact_mod_cast truncQ_intCast (n : ℤ)

theorem round_to_step_inv_nat (v : ℚ) (n : ℕ) (hn : 0 < n) (hv : 0 ≤ v) :
    round_to_step v (1 / (n : ℚ)) = some ((⌊v * (n : ℚ)⌋ : ℚ) / (n : ℚ)) := by
  have hnQ : (0 : ℚ) < (n : ℚ) := by exact_mod_cast hn
  have hstep : (1 : ℚ) / (n : ℚ) ≠ 0 := by positivity
  have hq := quant_of_inv_nat n hn
  have hn0 : (n : ℤ) ≠ 0 := by exact_mod_cast hn.ne'
  have hvmul : (0 : ℚ) ≤ v * ((n : ℤ) : ℚ) := by
    push_cast
    positivity
  simp only [round_to_step, hstep, if_neg hstep, hq, hn0, if_neg hn0,
    truncQ_of_nonneg hvmul]
  push_cast
  ring_nf

/-- The increment step of `round_up_to_step` computes the ceiling of a
nonnegative scaled value. -/
theorem trunc_adjust_eq_ceil (x : ℚ) :
    (if x = ((⌊x⌋ : ℤ) : ℚ) then ⌊x⌋ else ⌊x⌋ + 1) = ⌈x⌉ := by
  by_cases h : x = ((⌊x⌋ : ℤ) : ℚ)
  · rw [if_pos h]
    conv_rhs => rw [h]
    rw [Int.ceil_intCast]
  · rw [if_neg h]
    have hlt : (⌊x⌋ : ℚ) < x := lt_of_le_of_ne (Int.floor_le x) (fun hh => h hh.symm)
    have h1 : ⌊x⌋ < ⌈x⌉ := by exact_mod_cast hlt.trans_le (Int.le_ceil x)
    have h2 : ⌈x⌉ ≤ ⌊x⌋ + 1 := Int.ceil_le_floor_add_one x
    omega

theorem round_up_to_step_inv_nat (v : ℚ) (n : ℕ) (hn : 0 < n) (hv : 0 ≤ v) :
    round_up_to_step v (1 / (n : ℚ)) = some ((⌈v * (n : ℚ)⌉ : ℚ) / (n : ℚ)) := by
  have hnQ : (0 : ℚ) < (n : ℚ) := by exact_mod_cast hn
  have hstep : (1 : ℚ) / (n : ℚ) ≠ 0 := by positivity
  have hq := quant_of_inv_nat n hn
  have hn0 : (n : ℤ) ≠ 0 := by exact_mod_cast hn.ne'
  have hvmul : (0 : ℚ) ≤ v * ((n : ℤ) : ℚ) := by
    push_cast
    positivity
  simp only [round_up_to_step, hq, truncQ_of_nonneg hvmul]
  rw [if_neg hstep, if_neg hn0, trunc_adjust_eq_ceil (v * ((n : ℤ) : ℚ))]
  push_cast
  ring_nf

/-- C4 (amended): for nonnegative values and steps that are the
reciprocal of a positive whole number (all realistic exchange
increments: 1, 0.1, 0.01, 0.001, ...), `round_to_step` floors onto an
exact multiple of the step with `f ≤ v < f + s`, and
`round_up_to_step` rounds up with `c ≥ v > c - s`. -/
theorem quantization_bounds_amended (v : ℚ) (n : ℕ) (hn : 0 < n) (hv : 0 ≤ v) :
    ∃ f c : ℚ,
      round_to_step v (1 / (n : ℚ)) = some f ∧
      round_up_to_step v (1 / (n : ℚ)) = some c ∧
      f ≤ v ∧ v < f + 1 / (n : ℚ) ∧
      (∃ k : ℤ, f = (k : ℚ) * (1 / (n : ℚ))) ∧
      v ≤ c ∧ c - 1 / (n : ℚ) < v := by
  have hnQ : (0 : ℚ) < (n : ℚ) := by exact_mod_cast hn
  refine ⟨(⌊v * (n : ℚ)⌋ : ℚ) / (n : ℚ), (⌈v * (n : ℚ)⌉ : ℚ) / (n : ℚ),
    round_to_step_inv_nat v n hn hv, round_up_to_step_inv_nat v n hn hv,
    ?_, ?_, ⟨⌊v * (n : ℚ)⌋, by field_simp⟩, ?_, ?_⟩
  · rw [div_le_iff₀ hnQ]
    exact Int.floor_le _
  · have h1 : v * (n : ℚ) < (⌊v * (n : ℚ)⌋ : ℚ) + 1 := Int.lt_floor_add_one _
    rw [div_add_div_same, lt_div_iff₀ hnQ] at *
    calc v * (n : ℚ) < (⌊v * (n : ℚ)⌋ : ℚ) + 1 := h1
      _ = (⌊v * (n : ℚ)⌋ : ℚ) + 1 := rfl
  · rw [le_div_iff₀ hnQ]
    exact Int.le_ceil _
  · rw [div_sub_div_same, div_lt_iff₀ hnQ]
    have h2 : (⌈v * (n : ℚ)⌉ : ℚ) < v * (n : ℚ) + 1 := Int.ceil_lt_add_one _
    linarith

/-- The claim of full quantization bounds for every positive step fails
on the code: the helper scales by `⌊1/s⌋` rather than `1/s`, so at
`v = 0.32`, `s = 0.3` it returns `0` and the claimed bound
`v < floorToStep(v,s) + s` is violated (`0.32 ≥ 0 + 0.3`). -/
theorem quantization_bounds_counterexample :
    round_to_step (32/100) (3/10) = some 0 ∧ ¬((32 : ℚ)/100 < 0 + 3/10) := by
  constructor
  · norm_num [round_to_step, truncQ]
  · norm_num

/-- Witness instantiating `quantization_bounds_amended` at `v = 17/8`,
`s = 1/4`. -/
theorem quantization_bounds_amended_witness :
    ∃ f c : ℚ,
      round_to_step (17/8) (1 / ((4 : ℕ) : ℚ)) = some f ∧
      round_up_to_step (17/8) (1 / ((4 : ℕ) : ℚ)) = some c ∧
      f ≤ 17/8 ∧ (17 : ℚ)/8 < f + 1 / ((4 : ℕ) : ℚ) ∧
      (∃ k : ℤ, f = (k : ℚ) * (1 / ((4 : ℕ) : ℚ))) ∧
      (17 : ℚ)/8 ≤ c ∧ c - 1 / ((4 : ℕ) : ℚ) < 17/8 :=
  quantization_bounds_amended (17/8) 4 (by norm_num) (by norm_num)

/-!
### Decimal context rounding

`round_to_step` above computes both divisions in exact rational
arithmetic.  That idealization is adequate wherever the quotients are
exactly representable, but Python `Decimal` rounds every arithmetic
operation to the default context of 28 significant digits
(`ROUND_HALF_EVEN`), and the idempotence claim is sensitive to exactly
this: at step `0.3` the final division `1/3` returns the rounded value
`0.3333333333333333333333333333`, which re-floors to `0`.  The
definitions below model the context: `decRound28` is round-half-even to
28 significant digits, and `round_to_step_dec` is `round_to_step` with
every `Decimal` operation (the two divisions and the multiplication)
context-rounded, plus the `quantize` overflow error raised when the
scaling factor itself exceeds 28 digits. -/

/-- Round-half-even of a rational to an integer (banker's rounding,
the tie-breaking used by the `Decimal` default context). -/
def roundHalfEven (q : ℚ) : ℤ :=
  if q - (⌊q⌋ : ℚ) < 1/2 then ⌊q⌋
  else if 1/2 < q - (⌊q⌋ : ℚ) then ⌊q⌋ + 1
  else if ⌊q⌋ % 2 = 0 then ⌊q⌋ else ⌊q⌋ + 1

theorem roundHalfEven_intCast (n : ℤ) : roundHalfEven (n : ℚ) = n := by
  unfold roundHalfEven
  rw [Int.floor_intCast, if_pos (by norm_num)]

theorem roundHalfEven_mem (q : ℚ) :
    roundHalfEven q = ⌊q⌋ ∨ roundHalfEven q = ⌊q⌋ + 1 := by
  unfold roundHalfEven
  split_ifs <;> simp

/-- `⌊log10 x⌋` for a positive rational, computed from `Nat.log` on the
integer part of `x` (respectively of `1/x` for `x < 1`). -/
def intLog10 (x : ℚ) : ℤ :=
  if 1 ≤ x then (Nat.log 10 ⌊x⌋.toNat : ℤ)
  else
    if (10 : ℚ) ^ Nat.log 10 ⌊1/x⌋.toNat < 1/x
      then -(Nat.log 10 ⌊1/x⌋.toNat : ℤ) - 1
      else -(Nat.log 10 ⌊1/x⌋.toNat : ℤ)

/-- For `y ≥ 1`, `Nat.log 10 ⌊y⌋` brackets `y` between consecutive
powers of ten. -/
theorem natLog_pow_bounds (y : ℚ) (hy : 1 ≤ y) :
    (10:ℚ) ^ Nat.log 10 ⌊y⌋.toNat ≤ y ∧
      y < (10:ℚ) ^ (Nat.log 10 ⌊y⌋.toNat + 1) := by
  have hfl1 : 1 ≤ ⌊y⌋ := Int.le_floor.mpr (by exact_mod_cast hy)
  have hfn : ⌊y⌋.toNat ≠ 0 := by omega
  have h1 : (10:ℕ) ^ Nat.log 10 ⌊y⌋.toNat ≤ ⌊y⌋.toNat :=
    Nat.pow_log_le_self 10 hfn
  have h2 : ⌊y⌋.toNat < 10 ^ (Nat.log 10 ⌊y⌋.toNat + 1) :=
    Nat.lt_pow_succ_log_self (by norm_num) _
  have hcast : ((⌊y⌋.toNat : ℕ) : ℚ) = (⌊y⌋ : ℚ) := by
    rw [show ((⌊y⌋.toNat : ℕ) : ℚ) = ((⌊y⌋.toNat : ℤ) : ℚ) by push_cast; ring,
      Int.toNat_of_nonneg (by omega)]
  constructor
  · calc (10:ℚ) ^ Nat.log 10 ⌊y⌋.toNat
        = (((10:ℕ) ^ Nat.log 10 ⌊y⌋.toNat : ℕ) : ℚ) := by push_cast; ring
      _ ≤ ((⌊y⌋.toNat : ℕ) : ℚ) := by exact_mod_cast h1
      _ = (⌊y⌋ : ℚ) := hcast
      _ ≤ y := Int.floor_le y
  · calc y < (⌊y⌋ : ℚ) + 1 := Int.lt_floor_add_one y
      _ = ((⌊y⌋.toNat : ℕ) : ℚ) + 1 := by rw [hcast]
      _ ≤ (((10:ℕ) ^ (Nat.log 10 ⌊y⌋.toNat + 1) : ℕ) : ℚ) := by
          exact_mod_cast h2
      _ = (10:ℚ) ^ (Nat.log 10 ⌊y⌋.toNat + 1) := by push_cast; ring

theorem intLog10_correct (x : ℚ) (hx : 0 < x) :
    (10:ℚ) ^ intLog10 x ≤ x ∧ x < (10:ℚ) ^ (intLog10 x + 1) := by
  by_cases hx1 : 1 ≤ x
  · obtain ⟨l1, l2⟩ := natLog_pow_bounds x hx1
    rw [intLog10, if_pos hx1]
    constructor
    · rw [zpow_natCast]
      exact l1
    · rw [show (Nat.log 10 ⌊x⌋.toNat : ℤ) + 1
          = ((Nat.log 10 ⌊x⌋.toNat + 1 : ℕ) : ℤ) by push_cast; ring,
        zpow_natCast]
      exact l2
  · push_neg at hx1
    have hy1 : (1:ℚ) ≤ 1/x := by
      rw [le_div_iff₀ hx]
      linarith
    obtain ⟨l1, l2⟩ := natLog_pow_bounds (1/x) hy1
    by_cases hlt : (10 : ℚ) ^ Nat.log 10 ⌊1/x⌋.toNat < 1/x
    · rw [intLog10, if_neg (not_le.mpr hx1), if_pos hlt]
      constructor
      · have ha : 1/((10:ℚ) ^ (Nat.log 10 ⌊1/x⌋.toNat + 1)) ≤ 1/(1/x) :=
          one_div_le_one_div_of_le (by positivity) l2.le
        rw [one_div_one_div] at ha
        calc (10:ℚ) ^ (-(Nat.log 10 ⌊1/x⌋.toNat : ℤ) - 1)
            = 1/((10:ℚ) ^ (Nat.log 10 ⌊1/x⌋.toNat + 1)) := by
              rw [show -(Nat.log 10 ⌊1/x⌋.toNat : ℤ) - 1
                  = -((Nat.log 10 ⌊1/x⌋.toNat + 1 : ℕ) : ℤ) by push_cast; ring,
                zpow_neg, zpow_natCast]
              exact (one_div _).symm
          _ ≤ x := ha
      · have hb : 1/(1/x) < 1/((10:ℚ) ^ Nat.log 10 ⌊1/x⌋.toNat) :=
          one_div_lt_one_div_of_lt (by positivity) hlt
        rw [one_div_one_div] at hb
        calc x < 1/((10:ℚ) ^ Nat.log 10 ⌊1/x⌋.toNat) := hb
          _ = (10:ℚ) ^ (-(Nat.log 10 ⌊1/x⌋.toNat : ℤ) - 1 + 1) := by
              rw [show -(Nat.log 10 ⌊1/x⌋.toNat : ℤ) - 1 + 1
                  = -((Nat.log 10 ⌊1/x⌋.toNat : ℕ) : ℤ) by ring,
                zpow_neg, zpow_natCast, one_div]
    · push_neg at hlt
      have hy_eq : 1/x = (10:ℚ) ^ Nat.log 10 ⌊1/x⌋.toNat :=
        le_antisymm hlt l1
      have hxeq : x = 1/((10:ℚ) ^ Nat.log 10 ⌊1/x⌋.toNat) := by
        rw [← hy_eq, one_div_one_div]
      rw [intLog10, if_neg (not_le.mpr hx1), if_neg (not_lt.mpr hlt)]
      constructor
      · refine le_of_eq ?_
        calc (10:ℚ) ^ (-(Nat.log 10 ⌊1/x⌋.toNat : ℤ))
            = 1/((10:ℚ) ^ Nat.log 10 ⌊1/x⌋.toNat) := by
              rw [zpow_neg, zpow_natCast]
              exact (one_div _).symm
          _ = x := hxeq.symm
      · calc x = (10:ℚ) ^ (-(Nat.log 10 ⌊1/x⌋.toNat : ℤ)) := by
              rw [zpow_neg, zpow_natCast, ← one_div]
              exact hxeq
          _ < (10:ℚ) ^ (-(Nat.log 10 ⌊1/x⌋.toNat : ℤ) + 1) := by
              rw [zpow_lt_zpow_iff_right₀ (by norm_num : (1:ℚ) < 10)]
              omega

theorem intLog10_unique (x : ℚ) (hx : 0 < x) (a : ℤ)
    (h1 : (10:ℚ) ^ a ≤ x) (h2 : x < (10:ℚ) ^ (a + 1)) : intLog10 x = a := by
  obtain ⟨l1, l2⟩ := intLog10_correct x hx
  have h10 : (1:ℚ) < 10 := by norm_num
  by_contra hne
  rcases lt_or_gt_of_ne hne with hlt | hgt
  · have : (10:ℚ) ^ (intLog10 x + 1) ≤ (10:ℚ) ^ a :=
      (zpow_le_zpow_iff_right₀ h10).mpr (by omega)
    linarith
  · have : (10:ℚ) ^ (a + 1) ≤ (10:ℚ) ^ intLog10 x :=
      (zpow_le_zpow_iff_right₀ h10).mpr (by omega)
    linarith

/-- Round-half-even to 28 significant digits: the default `Decimal`
context in which every arithmetic operation of the source is
performed. -/
def decRound28 (x : ℚ) : ℚ :=
  if x = 0 then 0
  else if 0 < x then
    (roundHalfEven (x * (10:ℚ) ^ (27 - intLog10 x)) : ℚ)
      * (10:ℚ) ^ (intLog10 x - 27)
  else
    -((roundHalfEven (-x * (10:ℚ) ^ (27 - intLog10 (-x))) : ℚ)
        * (10:ℚ) ^ (intLog10 (-x) - 27))

theorem decRound28_zero : decRound28 0 = 0 := by
  rw [decRound28, if_pos rfl]

theorem decRound28_neg (x : ℚ) : decRound28 (-x) = -decRound28 x := by
  rcases lt_trichotomy x 0 with hneg | rfl | hpos
  · rw [decRound28, if_neg (by intro h; rw [neg_eq_zero] at h; exact hneg.ne h),
      if_pos (by linarith), decRound28, if_neg hneg.ne,
      if_neg (not_lt.mpr hneg.le), neg_neg]
  · rw [neg_zero, decRound28_zero, neg_zero]
  · rw [decRound28, if_neg (by intro h; rw [neg_eq_zero] at h; exact hpos.ne' h),
      if_neg (by intro h; linarith), decRound28, if_neg hpos.ne',
      if_pos hpos, neg_neg]

/-- `decRound28` fixes every value whose significand has at most 28
digits (positive case). -/
theorem decRound28_exact_pos (m j : ℤ) (hm : 0 < m) (hmb : m < 10^28) :
    decRound28 ((m:ℚ) * (10:ℚ)^j) = (m:ℚ) * (10:ℚ)^j := by
  have h10 : (10:ℚ) ≠ 0 := by norm_num
  have hmQ : (0:ℚ) < (m:ℚ) := by exact_mod_cast hm
  have hx : 0 < (m:ℚ) * (10:ℚ)^j := by positivity
  have hmn : m.toNat ≠ 0 := by omega
  have h1 : (10:ℕ) ^ Nat.log 10 m.toNat ≤ m.toNat := Nat.pow_log_le_self 10 hmn
  have h2 : m.toNat < 10 ^ (Nat.log 10 m.toNat + 1) :=
    Nat.lt_pow_succ_log_self (by norm_num) _
  have hmtn : ((m.toNat : ℕ) : ℚ) = (m:ℚ) := by
    rw [show ((m.toNat : ℕ) : ℚ) = ((m.toNat : ℤ) : ℚ) by push_cast; ring,
      Int.toNat_of_nonneg hm.le]
  have hL27 : Nat.log 10 m.toNat ≤ 27 := by
    have hlt : m.toNat < 10^28 := by
      have : (m.toNat : ℤ) < (10:ℤ)^28 := by
        rw [Int.toNat_of_nonneg hm.le]
        exact hmb
      exact_mod_cast this
    have := Nat.log_lt_of_lt_pow hmn hlt
    omega
  have hlow : (10:ℚ) ^ ((Nat.log 10 m.toNat : ℤ) + j) ≤ (m:ℚ) * (10:ℚ)^j := by
    rw [zpow_add₀ h10]
    refine mul_le_mul_of_nonneg_right ?_ (le_of_lt (by positivity))
    calc (10:ℚ) ^ (Nat.log 10 m.toNat : ℤ) = (10:ℚ) ^ Nat.log 10 m.toNat :=
          zpow_natCast _ _
      _ = (((10:ℕ) ^ Nat.log 10 m.toNat : ℕ) : ℚ) := by push_cast; ring
      _ ≤ ((m.toNat : ℕ) : ℚ) := by exact_mod_cast h1
      _ = (m:ℚ) := hmtn
  have hup : (m:ℚ) * (10:ℚ)^j < (10:ℚ) ^ ((Nat.log 10 m.toNat : ℤ) + j + 1) := by
    rw [show (Nat.log 10 m.toNat : ℤ) + j + 1
        = ((Nat.log 10 m.toNat : ℤ) + 1) + j by ring, zpow_add₀ h10]
    refine mul_lt_mul_of_pos_right ?_ (by positivity)
    calc (m:ℚ) = ((m.toNat : ℕ) : ℚ) := hmtn.symm
      _ < (((10:ℕ) ^ (Nat.log 10 m.toNat + 1) : ℕ) : ℚ) := by exact_mod_cast h2
      _ = (10:ℚ) ^ ((Nat.log 10 m.toNat : ℤ) + 1) := by
          rw [show (Nat.log 10 m.toNat : ℤ) + 1
              = ((Nat.log 10 m.toNat + 1 : ℕ) : ℤ) by push_cast; ring,
            zpow_natCast]
          push_cast; ring
  have he : intLog10 ((m:ℚ) * (10:ℚ)^j) = (Nat.log 10 m.toNat : ℤ) + j :=
    intLog10_unique _ hx _ hlow hup
  rw [decRound28, if_neg hx.ne', if_pos hx, he]
  have hkey : (m:ℚ) * (10:ℚ)^j * (10:ℚ) ^ (27 - ((Nat.log 10 m.toNat : ℤ) + j))
      = ((m * (10:ℤ) ^ (27 - Nat.log 10 m.toNat : ℕ) : ℤ) : ℚ) := by
    rw [mul_assoc, ← zpow_add₀ h10]
    rw [show j + (27 - ((Nat.log 10 m.toNat : ℤ) + j))
        = ((27 - Nat.log 10 m.toNat : ℕ) : ℤ) by
          push_cast [Nat.cast_sub hL27]; ring]
    rw [zpow_natCast]
    push_cast
    ring
  rw [hkey, roundHalfEven_intCast]
  push_cast
  rw [mul_assoc, ← zpow_natCast (10:ℚ) (27 - Nat.log 10 m.toNat),
    ← zpow_add₀ h10]
  rw [show ((27 - Nat.log 10 m.toNat : ℕ) : ℤ)
      + ((Nat.log 10 m.toNat : ℤ) + j - 27) = j by
        push_cast [Nat.cast_sub hL27]; ring]

/-- `decRound28` fixes every value whose significand has at most 28
digits. -/
theorem decRound28_exact (m j : ℤ) (hm : m ≠ 0) (hmb : |m| < 10^28) :
    decRound28 ((m:ℚ) * (10:ℚ)^j) = (m:ℚ) * (10:ℚ)^j := by
  rcases lt_or_gt_of_ne hm with hneg | hpos
  · have hb : -m < 10^28 := by rwa [abs_of_neg hneg] at hmb
    have hpos' := decRound28_exact_pos (-m) j (by omega) hb
    have hrw : (m:ℚ) * (10:ℚ)^j = -(((-m : ℤ) : ℚ) * (10:ℚ)^j) := by
      push_cast; ring
    rw [hrw, decRound28_neg, hpos']
  · exact decRound28_exact_pos m j hpos (by rwa [abs_of_pos hpos] at hmb)

/-- Every output of `decRound28` is a value with at most 28 significant
digits (positive case). -/
theorem decRound28_shape_pos (y : ℚ) (hy : 0 < y) :
    ∃ m j : ℤ, decRound28 y = (m:ℚ) * (10:ℚ)^j ∧ |m| < 10^28 := by
  obtain ⟨l1, l2⟩ := intLog10_correct y hy
  have h10 : (10:ℚ) ≠ 0 := by norm_num
  have h27 : (10:ℚ)^(27:ℤ)
      = (10:ℚ) ^ intLog10 y * (10:ℚ) ^ (27 - intLog10 y) := by
    rw [← zpow_add₀ h10]
    congr 1
    ring
  have h28 : (10:ℚ)^(28:ℤ)
      = (10:ℚ) ^ (intLog10 y + 1) * (10:ℚ) ^ (27 - intLog10 y) := by
    rw [← zpow_add₀ h10]
    congr 1
    ring
  have hS1 : (10:ℚ)^(27:ℤ) ≤ y * (10:ℚ) ^ (27 - intLog10 y) := by
    rw [h27]
    exact mul_le_mul_of_nonneg_right l1 (by positivity)
  have hS2 : y * (10:ℚ) ^ (27 - intLog10 y) < (10:ℚ)^(28:ℤ) := by
    rw [h28]
    exact mul_lt_mul_of_pos_right l2 (by positivity)
  have hfl0 : 0 ≤ ⌊y * (10:ℚ) ^ (27 - intLog10 y)⌋ :=
    Int.floor_nonneg.mpr (le_trans (by positivity) hS1)
  have hflub : ⌊y * (10:ℚ) ^ (27 - intLog10 y)⌋ < 10^28 := by
    refine Int.floor_lt.mpr ?_
    calc y * (10:ℚ) ^ (27 - intLog10 y) < (10:ℚ)^(28:ℤ) := hS2
      _ = ((10^28 : ℤ) : ℚ) := by norm_num
  have hunfold : decRound28 y
      = (roundHalfEven (y * (10:ℚ) ^ (27 - intLog10 y)) : ℚ)
          * (10:ℚ) ^ (intLog10 y - 27) := by
    rw [decRound28, if_neg hy.ne', if_pos hy]
  rcases roundHalfEven_mem (y * (10:ℚ) ^ (27 - intLog10 y)) with hR | hR
  · refine ⟨roundHalfEven (y * (10:ℚ) ^ (27 - intLog10 y)),
      intLog10 y - 27, hunfold, ?_⟩
    rw [hR, abs_of_nonneg hfl0]
    exact hflub
  · have hle : ⌊y * (10:ℚ) ^ (27 - intLog10 y)⌋ + 1 ≤ 10^28 :=
      Int.add_one_le_iff.mpr hflub
    by_cases htop : ⌊y * (10:ℚ) ^ (27 - intLog10 y)⌋ + 1 = 10^28
    · refine ⟨10^27, intLog10 y - 26, ?_, by norm_num⟩
      rw [hunfold, hR, htop]
      rw [show ((10^28 : ℤ) : ℚ) = (10:ℚ)^(28:ℤ) by norm_num,
        show ((10^27 : ℤ) : ℚ) = (10:ℚ)^(27:ℤ) by norm_num,
        ← zpow_add₀ h10, ← zpow_add₀ h10]
      congr 1
      ring
    · refine ⟨roundHalfEven (y * (10:ℚ) ^ (27 - intLog10 y)),
        intLog10 y - 27, hunfold, ?_⟩
      rw [hR, abs_of_nonneg (by omega)]
      exact lt_of_le_of_ne hle htop

/-- Every output of `decRound28` is a value with at most 28 significant
digits. -/
theorem decRound28_shape (y : ℚ) :
    ∃ m j : ℤ, decRound28 y = (m:ℚ) * (10:ℚ)^j ∧ |m| < 10^28 := by
  rcases lt_trichotomy y 0 with hneg | rfl | hpos
  · obtain ⟨m, j, hm, hb⟩ := decRound28_shape_pos (-y) (by linarith)
    refine ⟨-m, j, ?_, by rwa [abs_neg]⟩
    rw [show y = -(-y) by ring, decRound28_neg, hm]
    push_cast
    ring
  · exact ⟨0, 0, by rw [decRound28_zero]; push_cast; ring, by norm_num⟩
  · exact decRound28_shape_pos y hpos

/-- Truncation toward zero never increases the magnitude. -/
theorem abs_truncQ_le (x : ℚ) : |((truncQ x : ℤ) : ℚ)| ≤ |x| := by
  unfold truncQ
  by_cases h : 0 ≤ x
  · rw [if_pos h, abs_of_nonneg h,
      abs_of_nonneg (by exact_mod_cast Int.floor_nonneg.mpr h : (0:ℚ) ≤ (⌊x⌋ : ℚ))]
    exact Int.floor_le x
  · push_neg at h
    rw [if_neg (not_le.mpr h), abs_of_nonpos h.le,
      abs_of_nonpos (by
        exact_mod_cast Int.ceil_le.mpr
          (by exact_mod_cast h.le : x ≤ ((0:ℤ):ℚ)) : ((⌈x⌉ : ℤ) : ℚ) ≤ 0)]
    exact neg_le_neg (Int.le_ceil x)

/-- Truncating a 28-digit value toward zero yields an integer-exponent
28-digit value. -/
theorem truncQ_shape (m j : ℤ) (hmb : |m| < 10^28) :
    ∃ mt jt : ℤ, 0 ≤ jt ∧
      ((truncQ ((m:ℚ) * (10:ℚ)^j) : ℤ) : ℚ) = (mt:ℚ) * (10:ℚ)^jt ∧
      |mt| < 10^28 := by
  by_cases hj : 0 ≤ j
  · refine ⟨m, j, hj, ?_, hmb⟩
    have hint : (m:ℚ) * (10:ℚ)^j = ((m * 10^(j.toNat) : ℤ) : ℚ) := by
      push_cast
      rw [← zpow_natCast (10:ℚ) j.toNat, Int.toNat_of_nonneg hj]
    rw [hint, truncQ_intCast, ← hint]
  · push_neg at hj
    refine ⟨truncQ ((m:ℚ) * (10:ℚ)^j), 0, le_refl 0,
      by rw [zpow_zero, mul_one], ?_⟩
    have habs : |((truncQ ((m:ℚ) * (10:ℚ)^j) : ℤ) : ℚ)|
        ≤ |(m:ℚ) * (10:ℚ)^j| := abs_truncQ_le _
    have hpow1 : (10:ℚ)^j ≤ 1 :=
      zpow_le_one_of_nonpos₀ (by norm_num) hj.le
    have hlt1 : |(m:ℚ) * (10:ℚ)^j| < ((10^28 : ℤ) : ℚ) := by
      rw [abs_mul, abs_of_pos (a := (10:ℚ)^j) (by positivity)]
      calc |(m:ℚ)| * (10:ℚ)^j ≤ |(m:ℚ)| * 1 :=
            mul_le_mul_of_nonneg_left hpow1 (abs_nonneg _)
        _ = |(m:ℚ)| := mul_one _
        _ < ((10^28 : ℤ) : ℚ) := by exact_mod_cast hmb
    have : |((truncQ ((m:ℚ) * (10:ℚ)^j) : ℤ) : ℚ)| < ((10^28 : ℤ) : ℚ) :=
      lt_of_le_of_lt habs hlt1
    exact_mod_cast this

/-- `round_to_step` with every `Decimal` operation rounded to the
default 28-significant-digit context: the reciprocal of the step
(whose `quantize(1, ROUND_DOWN)` additionally raises when the scaled
integer would exceed the 28-digit precision — modelled as `none`), the
product `value * quant`, and the final descaling division. -/
def round_to_step_dec (value step : ℚ) : Option ℚ :=
  if step = 0 then some value
  else
    let quant : ℤ := truncQ (decRound28 (1 / step))
    if quant = 0 then none
    else if 10^28 ≤ |quant| then none
    else some (decRound28
      ((truncQ (decRound28 (value * quant)) : ℚ) / (quant : ℚ)))

theorem round_to_step_dec_eq (value step : ℚ) (hs : step ≠ 0)
    (hq0 : truncQ (decRound28 (1 / step)) ≠ 0)
    (hqb : |truncQ (decRound28 (1 / step))| < 10^28) :
    round_to_step_dec value step
      = some (decRound28
          (((truncQ (decRound28 (value * (truncQ (decRound28 (1 / step)) : ℤ))) : ℤ) : ℚ)
            / ((truncQ (decRound28 (1 / step)) : ℤ) : ℚ))) := by
  unfold round_to_step_dec
  rw [if_neg hs]
  simp only [if_neg hq0, if_neg (not_le.mpr hqb)]

/-- The idempotence claimed for every positive step fails on the code:
at value `0.5`, step `0.3` the final context division `1/3` rounds to
the 28-digit value `0.3333333333333333333333333333`, and re-flooring
that result to the same step collapses it to `0`. -/
theorem idempotence_counterexample :
    round_to_step_dec (1/2) (3/10)
        = some (3333333333333333333333333333 / 10^28) ∧
    round_to_step_dec (3333333333333333333333333333 / 10^28) (3/10)
        = some 0 ∧
    (3333333333333333333333333333 / 10^28 : ℚ) ≠ 0 := by
  have e1 : intLog10 ((10:ℚ)/3) = 0 :=
    intLog10_unique _ (by norm_num) 0 (by norm_num) (by norm_num)
  have d1 : decRound28 (1 / (3/10) : ℚ)
      = 3333333333333333333333333333 / 10^27 := by
    have hx : (1 / (3/10) : ℚ) = (10:ℚ)/3 := by norm_num
    rw [hx, decRound28, if_neg (by norm_num), if_pos (by norm_num), e1]
    norm_num [roundHalfEven]
  have t1 : truncQ (decRound28 (1 / (3/10) : ℚ)) = 3 := by
    rw [d1]; norm_num [truncQ]
  refine ⟨?_, ?_, by norm_num⟩
  · have e2 : intLog10 ((3:ℚ)/2) = 0 :=
      intLog10_unique _ (by norm_num) 0 (by norm_num) (by norm_num)
    have d2 : decRound28 ((1/2 : ℚ) * ((3:ℤ):ℚ)) = 3/2 := by
      have hx : ((1/2 : ℚ) * ((3:ℤ):ℚ)) = (3:ℚ)/2 := by norm_num
      rw [hx, decRound28, if_neg (by norm_num), if_pos (by norm_num), e2]
      norm_num [roundHalfEven]
    have t2 : truncQ (decRound28 ((1/2 : ℚ) * ((3:ℤ):ℚ))) = 1 := by
      rw [d2]; norm_num [truncQ]
    have e3 : intLog10 ((1:ℚ)/3) = -1 :=
      intLog10_unique _ (by norm_num) (-1) (by norm_num) (by norm_num)
    have d3 : decRound28 (((1:ℤ):ℚ) / ((3:ℤ):ℚ))
        = 3333333333333333333333333333 / 10^28 := by
      have hx : (((1:ℤ):ℚ) / ((3:ℤ):ℚ)) = (1:ℚ)/3 := by norm_num
      rw [hx, decRound28, if_neg (by norm_num), if_pos (by norm_num), e3]
      norm_num [roundHalfEven]
    rw [round_to_step_dec_eq _ _ (by norm_num) (by rw [t1]; norm_num)
      (by rw [t1]; norm_num), t1, t2, d3]
  · have d4 : decRound28 ((3333333333333333333333333333/10^28 : ℚ) * ((3:ℤ):ℚ))
        = ((9999999999999999999999999999:ℤ):ℚ) * (10:ℚ)^(-28:ℤ) := by
      have hx : ((3333333333333333333333333333/10^28 : ℚ) * ((3:ℤ):ℚ))
          = ((9999999999999999999999999999:ℤ):ℚ) * (10:ℚ)^(-28:ℤ) := by
        norm_num
      rw [hx, decRound28_exact 9999999999999999999999999999 (-28)
        (by norm_num) (by norm_num)]
    have t4 : truncQ (decRound28 ((3333333333333333333333333333/10^28 : ℚ)
        * ((3:ℤ):ℚ))) = 0 := by
      rw [d4]; norm_num [truncQ]
    rw [round_to_step_dec_eq _ _ (by norm_num) (by rw [t1]; norm_num)
      (by rw [t1]; norm_num), t1, t4, Int.cast_zero, zero_div, decRound28_zero]

/-- C8: `round_to_step` is not idempotent for arbitrary steps — the
final division is rounded to the default 28-significant-digit `Decimal`
context, so the result of rounding `0.5` to step `0.3` re-floors to `0`
— but for the power-of-ten steps `10^(-k)`, `k ≤ 27`, used by exchange
filters, every intermediate value is exactly representable in the
context and re-applying the rounding returns the result unchanged. -/
theorem round_to_step_dec_idempotent_pow10 (k : ℕ) (hk : k ≤ 27)
    (v r : ℚ) (h : round_to_step_dec v (1 / (10:ℚ)^k) = some r) :
    round_to_step_dec r (1 / (10:ℚ)^k) = some r := by
  have h10 : (10:ℚ) ≠ 0 := by norm_num
  have hstep : (1:ℚ) / (10:ℚ)^k ≠ 0 := by positivity
  have hcast : (((10:ℤ)^k : ℤ) : ℚ) = (10:ℚ)^k := by push_cast; ring
  have hq0 : ((10:ℤ)^k : ℤ) ≠ 0 := by positivity
  have hqb : |((10:ℤ)^k : ℤ)| < 10^28 := by
    rw [abs_of_pos (by positivity)]
    calc (10:ℤ)^k ≤ (10:ℤ)^27 := pow_le_pow_right₀ (by norm_num) hk
      _ < 10^28 := by norm_num
  have hd10 : decRound28 ((10:ℚ)^k) = (10:ℚ)^k := by
    have hx := decRound28_exact ((10:ℤ)^k) 0 hq0 hqb
    rw [zpow_zero, mul_one, hcast] at hx
    exact hx
  have hquant : truncQ (decRound28 (1 / (1 / (10:ℚ)^k))) = (10:ℤ)^k := by
    rw [one_div_one_div, hd10, ← hcast, truncQ_intCast]
  rw [round_to_step_dec_eq v _ hstep (by rw [hquant]; exact hq0)
    (by rw [hquant]; exact hqb), hquant] at h
  rw [round_to_step_dec_eq r _ hstep (by rw [hquant]; exact hq0)
    (by rw [hquant]; exact hqb), hquant]
  have hr := Option.some.inj h
  obtain ⟨mw, jw, hw, hbw⟩ := decRound28_shape (v * (((10:ℤ)^k : ℤ) : ℚ))
  obtain ⟨mt, jt, hjt, hMt, hbt⟩ := truncQ_shape mw jw hbw
  rw [hw, hMt] at hr
  have hqq : (mt:ℚ) * (10:ℚ)^jt / (((10:ℤ)^k : ℤ) : ℚ)
      = (mt:ℚ) * (10:ℚ)^(jt - (k:ℤ)) := by
    rw [hcast, div_eq_mul_inv, mul_assoc, ← zpow_natCast (10:ℚ) k, ← zpow_neg,
      ← zpow_add₀ h10, show jt + -(k:ℤ) = jt - (k:ℤ) by ring]
  rw [hqq] at hr
  have h0 : truncQ (0:ℚ) = 0 := by norm_num [truncQ]
  by_cases hmt0 : mt = 0
  · subst hmt0
    rw [Int.cast_zero, zero_mul, decRound28_zero] at hr
    rw [← hr, zero_mul, decRound28_zero, h0, Int.cast_zero, zero_div,
      decRound28_zero]
  · have hrq : r = (mt:ℚ) * (10:ℚ)^(jt - (k:ℤ)) := by
      rw [← hr, decRound28_exact mt (jt - (k:ℤ)) hmt0 hbt]
    have hrmul : r * (((10:ℤ)^k : ℤ) : ℚ) = (mt:ℚ) * (10:ℚ)^jt := by
      rw [hrq, hcast, mul_assoc, ← zpow_natCast (10:ℚ) k, ← zpow_add₀ h10,
        show jt - (k:ℤ) + (k:ℤ) = jt by ring]
    have hd2 : decRound28 (r * (((10:ℤ)^k : ℤ) : ℚ)) = (mt:ℚ) * (10:ℚ)^jt := by
      rw [hrmul]
      exact decRound28_exact mt jt hmt0 hbt
    have hint : (mt:ℚ) * (10:ℚ)^jt = ((mt * 10^jt.toNat : ℤ) : ℚ) := by
      push_cast
      rw [← zpow_natCast (10:ℚ) jt.toNat, Int.toNat_of_nonneg hjt]
    have htr2 : ((truncQ ((mt:ℚ) * (10:ℚ)^jt) : ℤ) : ℚ)
        = (mt:ℚ) * (10:ℚ)^jt := by
      rw [hint, truncQ_intCast, ← hint]
    rw [hd2, htr2, hqq, decRound28_exact mt (jt - (k:ℤ)) hmt0 hbt, ← hrq]

/-- Witness instantiating `round_to_step_dec_idempotent_pow10` at
`k = 2`, `v = 2.125`: the first rounding yields `2.12` and re-rounding
leaves it unchanged. -/
theorem round_to_step_dec_idempotent_pow10_witness :
    round_to_step_dec (53/25) (1 / (10:ℚ)^2) = some (53/25) :=
  round_to_step_dec_idempotent_pow10 2 (by norm_num) (17/8) (53/25) (by
    have d1 : decRound28 (1 / (1 / (10:ℚ)^2)) = ((100:ℤ):ℚ) := by
      have hx : (1 / (1 / (10:ℚ)^2) : ℚ) = ((100:ℤ):ℚ) * (10:ℚ)^(0:ℤ) := by
        norm_num
      rw [hx, decRound28_exact 100 0 (by norm_num) (by norm_num)]
      norm_num
    have t1 : truncQ (decRound28 (1 / (1 / (10:ℚ)^2))) = 100 := by
      rw [d1, truncQ_intCast]
    have d2 : decRound28 ((17/8 : ℚ) * ((100:ℤ):ℚ))
        = ((2125:ℤ):ℚ) * (10:ℚ)^(-1:ℤ) := by
      have hx : ((17/8 : ℚ) * ((100:ℤ):ℚ))
          = ((2125:ℤ):ℚ) * (10:ℚ)^(-1:ℤ) := by norm_num
      rw [hx, decRound28_exact 2125 (-1) (by norm_num) (by norm_num)]
    have t2 : truncQ (decRound28 ((17/8 : ℚ) * ((100:ℤ):ℚ))) = 212 := by
      rw [d2]; norm_num [truncQ]
    have d3 : decRound28 (((212:ℤ):ℚ) / ((100:ℤ):ℚ)) = 53/25 := by
      have hx : (((212:ℤ):ℚ) / ((100:ℤ):ℚ))
          = ((212:ℤ):ℚ) * (10:ℚ)^(-2:ℤ) := by norm_num
      rw [hx, decRound28_exact 212 (-2) (by norm_num) (by norm_num)]
      norm_num
    rw [round_to_step_dec_eq _ _ (by positivity) (by rw [t1]; norm_num)
      (by rw [t1]; norm_num), t1, t2, d3])


/-!
## Signal rate arbiter (`signal_router.py`)

Events are `(timestamp, side)` pairs with sides the raw strings
`"long"`/`"short"`; the deque is modelled as a list with the oldest
event at the head (`popleft` removes the head, `append` adds at the
tail).  Wall-clock reads (`time()`) become explicit `now` arguments.
-/

structure SignalRouter where
  W : ℚ
  N : ℕ
  F : ℕ
  T_hold : ℚ
  H : ℚ
  events : List (ℚ × String)
  spam_until : ℚ
  last_open_ts : ℚ
  last_side : Option String

/-- `SignalRouter.__init__`: empty window, no latch, no recorded open. -/
def mkSignalRouter (W : ℚ) (N F : ℕ) (T_hold H : ℚ) : SignalRouter :=
  { W := W, N := N, F := F, T_hold := T_hold, H := H,
    events := [], spam_until := 0, last_open_ts := 0, last_side := none }

/-- `SignalRouter._purge`: pop from the front while the front event is
older than `W` seconds. -/
def purge (W now : ℚ) (events : List (ℚ × String)) : List (ℚ × String) :=
  events.dropWhile (fun e => decide (W < now - e.1))

/-- `SignalRouter.register`: append `(now, side)`, purge, remember the
side. -/
def register (r : SignalRouter) (now : ℚ) (side : String) : SignalRouter :=
  { r with events := purge r.W now (r.events ++ [(now, side)]),
           last_side := some side }

/-- `SignalRouter.start_opened`. -/
def start_opened (r : SignalRouter) (now : ℚ) : SignalRouter :=
  { r with last_open_ts := now }

/-- Count of adjacent event pairs whose sides differ
(`flips` in `SignalRouter.in_spam`). -/
def flips : List (ℚ × String) → ℕ
  | [] => 0
  | [_] => 0
  | a :: b :: rest => (if a.2 ≠ b.2 then 1 else 0) + flips (b :: rest)

/-- `too_fast_reentry`: Python's float truthiness makes the comparison
apply only when some open has ever been recorded
(`... if self.last_open_ts else False`). -/
def too_fast_reentry (r : SignalRouter) (now : ℚ) : Bool :=
  if r.last_open_ts ≠ 0 then decide (now - r.last_open_ts < r.T_hold) else false

/-- `SignalRouter.in_spam`: purge, honour the hysteresis latch, else
classify the window and latch `spam_until = now + H` on trigger.
Returns the boolean together with the mutated router. -/
def in_spam (r : SignalRouter) (now : ℚ) : Bool × SignalRouter :=
  let evs := purge r.W now r.events
  if now < r.spam_until then (true, { r with events := evs })
  else
    let count := evs.length
    let fl := flips evs
    let spam := decide (r.N ≤ count) || decide (r.F ≤ fl) || too_fast_reentry r now
    (spam, { r with events := evs,
                    spam_until := if spam then now + r.H else r.spam_until })

/-- Registering a batch of signals in sequence. -/
def register_all (r : SignalRouter) (sigs : List (ℚ × String)) : SignalRouter :=
  sigs.foldl (fun acc e => register acc e.1 e.2) r

theorem purge_eq_self (W now : ℚ) (evs : List (ℚ × String))
    (h : ∀ e ∈ evs, ¬ W < now - e.1) : purge W now evs = evs := by
  induction evs with
  | nil => rfl
  | cons a as _ =>
      unfold purge
      rw [List.dropWhile_cons]
      simp only [decide_eq_true_eq]
      rw [if_neg (h a (List.mem_cons_self a as))]

theorem too_fast_iff (r : SignalRouter) (now : ℚ) :
    too_fast_reentry r now = true ↔
      (r.last_open_ts ≠ 0 ∧ now - r.last_open_ts < r.T_hold) := by
  unfold too_fast_reentry
  by_cases h : r.last_open_ts = 0 <;> simp [h]

/-- Registering events that are all within the window relative to a
reference time `now` (and timestamped no later than `now`) appends them
without purging anything, and leaves every non-window field of the
router unchanged. -/
theorem register_all_sound (sigs : List (ℚ × String)) (r : SignalRouter) (now : ℚ)
    (hall : ∀ e ∈ r.events ++ sigs, e.1 ≤ now ∧ now - e.1 ≤ r.W) :
    (register_all r sigs).events = r.events ++ sigs ∧
    (register_all r sigs).W = r.W ∧
    (register_all r sigs).N = r.N ∧
    (register_all r sigs).F = r.F ∧
    (register_all r sigs).T_hold = r.T_hold ∧
    (register_all r sigs).H = r.H ∧
    (register_all r sigs).spam_until = r.spam_until ∧
    (register_all r sigs).last_open_ts = r.last_open_ts := by
  induction sigs generalizing r with
  | nil =>
      refine ⟨?_, rfl, rfl, rfl, rfl, rfl, rfl, rfl⟩
      simp [register_all]
  | cons e rest ih =>
      obtain ⟨t, side⟩ := e
      have hmem : (t, side) ∈ r.events ++ (t, side) :: rest :=
        List.mem_append_right _ (List.mem_cons_self _ _)
      obtain ⟨ht_le, ht_W⟩ := hall _ hmem
      have hreg_events : (register r t side).events = r.events ++ [(t, side)] := by
        unfold register
        refine purge_eq_self _ _ _ ?_
        intro e' he'
        rcases List.mem_append.mp he' with h' | h'
        · obtain ⟨he_le, he_W⟩ := hall e' (List.mem_append_left _ h')
          have : t - e'.1 ≤ now - e'.1 := by linarith
          linarith
        · rcases List.mem_singleton.mp h' with rfl
          simp only
          have h0 : (0 : ℚ) ≤ now - t := by linarith
          have hW0 : (0 : ℚ) ≤ r.W := le_trans h0 ht_W
          linarith
      have hnext : ∀ e' ∈ (register r t side).events ++ rest,
          e'.1 ≤ now ∧ now - e'.1 ≤ (register r t side).W := by
        intro e' he'
        rw [hreg_events] at he'
        have : e' ∈ r.events ++ (t, side) :: rest := by
          rcases List.mem_append.mp he' with h' | h'
          · rcases List.mem_append.mp h' with h'' | h''
            · exact List.mem_append_left _ h''
            · rcases List.mem_singleton.mp h'' with rfl
              exact hmem
          · exact List.mem_append_right _ (List.mem_cons_of_mem _ h')
        exact hall e' this
      have hfold : register_all r ((t, side) :: rest)
          = register_all (register r t side) rest := rfl
      obtain ⟨h1, h2, h3, h4, h5, h6, h7, h8⟩ := ih (register r t side) hnext
      refine ⟨?_, ?_, ?_, ?_, ?_, ?_, ?_, ?_⟩ <;>
        rw [hfold] <;>
        first
          | (rw [h1, hreg_events]; simp)
          | (rw [h2]; rfl) | (rw [h3]; rfl) | (rw [h4]; rfl)
          | (rw [h5]; rfl) | (rw [h6]; rfl) | (rw [h7]; rfl) | (rw [h8]; rfl)

theorem purge_length_le (W now : ℚ) (l : List (ℚ × String)) :
    (purge W now l).length ≤ l.length := by
  unfold purge
  induction l with
  | nil => simp
  | cons a as ih =>
      rw [List.dropWhile_cons]
      by_cases h : W < now - a.1
      · rw [if_pos (decide_eq_true h)]
        exact Nat.le_succ_of_le ih
      · rw [if_neg (by simpa using h)]

theorem flips_eq_zero (l : List (ℚ × String)) (h : l.length ≤ 1) :
    flips l = 0 := by
  match l with
  | [] => rfl
  | [_] => rfl
  | a :: b :: rest => simp at h

/-- On the non-latched branch, `in_spam` returns exactly the disjunction
of the three trigger conditions computed over the purged window. -/
theorem in_spam_fresh_eq (r : SignalRouter) (now : ℚ)
    (hlatch : ¬ now < r.spam_until) :
    (in_spam r now).1
      = (decide (r.N ≤ (purge r.W now r.events).length)
          || decide (r.F ≤ flips (purge r.W now r.events))
          || too_fast_reentry r now) := by
  simp only [in_spam]
  rw [if_neg hlatch]

theorem in_spam_latched_true (r : SignalRouter) (now : ℚ)
    (h : now < r.spam_until) :
    (in_spam r now).1 = true ∧ (in_spam r now).2.spam_until = r.spam_until := by
  simp only [in_spam]
  rw [if_pos h]
  exact ⟨rfl, rfl⟩

theorem in_spam_trigger_latches (r : SignalRouter) (now : ℚ)
    (hlatch : ¬ now < r.spam_until) (htrig : (in_spam r now).1 = true) :
    (in_spam r now).2.spam_until = now + r.H := by
  have hspam : (decide (r.N ≤ (purge r.W now r.events).length)
      || decide (r.F ≤ flips (purge r.W now r.events))
      || too_fast_reentry r now) = true := by
    rw [← in_spam_fresh_eq r now hlatch]
    exact htrig
  simp only [in_spam]
  rw [if_neg hlatch]
  simp only [hspam, if_true]

/-- C2: on a non-latched router, `in_spam` is exactly
`count ≥ N ∨ flips ≥ F ∨ tooFastReentry` over the purged window, where
`tooFastReentry` requires a recorded successful open; `N` same-side
signals within `W` seconds of the query time trigger it; a single
signal on a fresh arbiter (with the meaningful thresholds `N ≥ 2`,
`F ≥ 1`) does not. -/
theorem in_spam_characterization :
    (∀ (r : SignalRouter) (now : ℚ), ¬ now < r.spam_until →
      ((in_spam r now).1 = true ↔
        (r.N ≤ (purge r.W now r.events).length ∨
         r.F ≤ flips (purge r.W now r.events) ∨
         (r.last_open_ts ≠ 0 ∧ now - r.last_open_ts < r.T_hold))))
    ∧
    (∀ (W : ℚ) (N F : ℕ) (T_hold H : ℚ) (t now : ℚ) (side : String),
      0 ≤ now → 2 ≤ N → 1 ≤ F →
      (in_spam (register (mkSignalRouter W N F T_hold H) t side) now).1 = false)
    ∧
    (∀ (W : ℚ) (N F : ℕ) (T_hold H : ℚ) (sigs : List (ℚ × String))
        (side : String) (now : ℚ),
      0 ≤ now → sigs.length = N →
      (∀ e ∈ sigs, e.2 = side ∧ e.1 ≤ now ∧ now - e.1 ≤ W) →
      (in_spam (register_all (mkSignalRouter W N F T_hold H) sigs) now).1 = true) := by
  refine ⟨?_, ?_, ?_⟩
  · intro r now hlatch
    rw [in_spam_fresh_eq r now hlatch]
    simp only [Bool.or_eq_true, decide_eq_true_eq, too_fast_iff]
    tauto
  · intro W N F T_hold H t now side h0 hN hF
    have hlatch : ¬ now <
        (register (mkSignalRouter W N F T_hold H) t side).spam_until := by
      show ¬ now < (0 : ℚ)
      exact not_lt.mpr h0
    rw [in_spam_fresh_eq _ now hlatch]
    have hlen1 : (register (mkSignalRouter W N F T_hold H) t side).events.length
        ≤ 1 := by
      show (purge W t ([] ++ [(t, side)])).length ≤ 1
      calc (purge W t ([] ++ [(t, side)])).length
          ≤ ([] ++ [(t, side)] : List (ℚ × String)).length := purge_length_le _ _ _
        _ = 1 := by simp
    have hlen : (purge (register (mkSignalRouter W N F T_hold H) t side).W now
        (register (mkSignalRouter W N F T_hold H) t side).events).length ≤ 1 :=
      le_trans (purge_length_le _ _ _) hlen1
    have hfl : flips (purge (register (mkSignalRouter W N F T_hold H) t side).W now
        (register (mkSignalRouter W N F T_hold H) t side).events) = 0 :=
      flips_eq_zero _ hlen
    have hNr : (register (mkSignalRouter W N F T_hold H) t side).N = N := rfl
    have hFr : (register (mkSignalRouter W N F T_hold H) t side).F = F := rfl
    have hnotN : ¬ ((register (mkSignalRouter W N F T_hold H) t side).N ≤
        (purge (register (mkSignalRouter W N F T_hold H) t side).W now
          (register (mkSignalRouter W N F T_hold H) t side).events).length) := by
      rw [hNr]; omega
    have hnotF : ¬ ((register (mkSignalRouter W N F T_hold H) t side).F ≤
        flips (purge (register (mkSignalRouter W N F T_hold H) t side).W now
          (register (mkSignalRouter W N F T_hold H) t side).events)) := by
      rw [hFr, hfl]; omega
    have hopen : (register (mkSignalRouter W N F T_hold H) t side).last_open_ts
        = 0 := rfl
    simp [hnotN, hnotF, too_fast_reentry, hopen]
  · intro W N F T_hold H sigs side now h0 hlen hall
    obtain ⟨hev, hW, hN, _, _, _, hsp, _⟩ :=
      register_all_sound sigs (mkSignalRouter W N F T_hold H) now
        (by
          intro e he
          simp only [mkSignalRouter, List.nil_append] at he
          exact ⟨(hall e he).2.1, (hall e he).2.2⟩)
    have hlatch : ¬ now <
        (register_all (mkSignalRouter W N F T_hold H) sigs).spam_until := by
      rw [hsp]
      show ¬ now < (0 : ℚ)
      exact not_lt.mpr h0
    rw [in_spam_fresh_eq _ now hlatch]
    have hevs : (register_all (mkSignalRouter W N F T_hold H) sigs).events
        = sigs := by
      rw [hev]; rfl
    have hpurge : purge (register_all (mkSignalRouter W N F T_hold H) sigs).W now
        (register_all (mkSignalRouter W N F T_hold H) sigs).events = sigs := by
      rw [hevs, hW]
      show purge W now sigs = sigs
      exact purge_eq_self W now sigs
        (fun e he => not_lt.mpr (by linarith [(hall e he).2.2]))
    have hcount : (register_all (mkSignalRouter W N F T_hold H) sigs).N ≤
        (purge (register_all (mkSignalRouter W N F T_hold H) sigs).W now
          (register_all (mkSignalRouter W N F T_hold H) sigs).events).length := by
      rw [hpurge, hlen, hN]
      rfl
    simp [hcount]

/-- Witness for `in_spam_characterization` at the default parameters
`(W, N, F, T_hold, H) = (90, 4, 3, 30, 60)`: one signal registered at
`t = 0` is calm at `now = 0`, four same-side signals inside the window
are spam at `now = 3`. -/
theorem in_spam_characterization_witness :
    ((in_spam (mkSignalRouter 90 4 3 30 60) 5).1 = true ↔
      ((mkSignalRouter 90 4 3 30 60).N ≤
          (purge (mkSignalRouter 90 4 3 30 60).W 5
            (mkSignalRouter 90 4 3 30 60).events).length ∨
       (mkSignalRouter 90 4 3 30 60).F ≤
          flips (purge (mkSignalRouter 90 4 3 30 60).W 5
            (mkSignalRouter 90 4 3 30 60).events) ∨
       ((mkSignalRouter 90 4 3 30 60).last_open_ts ≠ 0 ∧
        5 - (mkSignalRouter 90 4 3 30 60).last_open_ts <
          (mkSignalRouter 90 4 3 30 60).T_hold))) ∧
    (in_spam (register (mkSignalRouter 90 4 3 30 60) 0 "long") 0).1 = false ∧
    (in_spam (register_all (mkSignalRouter 90 4 3 30 60)
        [(0, "long"), (1, "long"), (2, "long"), (3, "long")]) 3).1 = true := by
  refine ⟨?_, ?_, ?_⟩
  · exact in_spam_characterization.1 (mkSignalRouter 90 4 3 30 60) 5
      (by norm_num [mkSignalRouter])
  · exact in_spam_characterization.2.1 90 4 3 30 60 0 0 "long"
      le_rfl (by norm_num) (by norm_num)
  · refine in_spam_characterization.2.2 90 4 3 30 60
      [(0, "long"), (1, "long"), (2, "long"), (3, "long")] "long" 3
      (by norm_num) rfl ?_
    intro e he
    fin_cases he <;> norm_num

/-- Iterated classification: the conjunction of `in_spam` results along
a sequence of query times, threading the mutated router. -/
def in_spam_seq : SignalRouter → List ℚ → Bool
  | _, [] => true
  | r, t :: ts => (in_spam r t).1 && in_spam_seq (in_spam r t).2 ts

theorem in_spam_seq_latched (ts : List ℚ) :
    ∀ (s : SignalRouter) (U : ℚ), s.spam_until = U → (∀ u ∈ ts, u < U) →
      in_spam_seq s ts = true := by
  induction ts with
  | nil => intro s U _ _; rfl
  | cons u ts ih =>
      intro s U hU hall
      have hu : u < s.spam_until := by
        rw [hU]
        exact hall u (List.mem_cons_self _ _)
      obtain ⟨h1, h2⟩ := in_spam_latched_true s u hu
      unfold in_spam_seq
      rw [h1, Bool.true_and]
      exact ih _ U (h2.trans hU) (fun v hv => hall v (List.mem_cons_of_mem _ hv))

/-- C3: once `in_spam` triggers by fresh computation at time `t`
(latching `spam_until = t + H`), every further `in_spam` query at a
time strictly between `t` and `t + H` returns `true`, with no further
registrations needed. -/
theorem hysteresis_holds (r : SignalRouter) (t : ℚ) (ts : List ℚ)
    (hfresh : ¬ t < r.spam_until) (htrig : (in_spam r t).1 = true)
    (hts : ∀ u ∈ ts, t < u ∧ u < t + r.H) :
    in_spam_seq (in_spam r t).2 ts = true := by
  have hU : (in_spam r t).2.spam_until = t + r.H :=
    in_spam_trigger_latches r t hfresh htrig
  exact in_spam_seq_latched ts _ (t + r.H) hU (fun u hu => (hts u hu).2)

/-- Witness for `hysteresis_holds`: a router with `N = 0` triggers at
`t = 0` and stays in spam mode at `10`, `30` and `59 < H = 60`. -/
theorem hysteresis_holds_witness :
    in_spam_seq (in_spam (mkSignalRouter 90 0 3 30 60) 0).2 [10, 30, 59]
      = true := by
  refine hysteresis_holds (mkSignalRouter 90 0 3 30 60) 0 [10, 30, 59]
    (by norm_num [mkSignalRouter]) ?_ ?_
  · rw [in_spam_fresh_eq _ 0 (by norm_num [mkSignalRouter])]
    simp [mkSignalRouter, purge]
  · intro u hu
    fin_cases hu <;> norm_num [mkSignalRouter]

/-!
## Execution engine (`order_manager.py`)

Exchange responses (book-ticker snapshots, position snapshots,
order-placement outcomes) are passed in explicitly; raised exceptions
become `Except.error`.
-/

inductive Side
  | BUY
  | SELL
deriving DecidableEq

/-- `OrderManager.maker_price`: join the touch on the order's side and
step back one tick if the touch has crossed; the result is quantized to
the tick size.  `best_bid`/`best_ask` are the book-ticker snapshot the
source reads at call time. -/
def maker_price (tick_size : ℚ) (side : Side) (best_bid best_ask : ℚ) :
    Option ℚ :=
  let target :=
    if side = Side.BUY then
      if best_bid ≥ best_ask then best_ask - tick_size else best_bid
    else
      if best_ask ≤ best_bid then best_bid + tick_size else best_ask
  round_to_step target tick_size

/-- C6: the maker quote joins the touch — bid for a buy, ask for a sell,
quantized to the tick — and steps back one tick on a crossed book; in
particular bid=100.00/ask=100.01 quotes a maker buy at 100.00. -/
theorem maker_price_joins_touch (tick bid ask : ℚ) :
    (bid < ask →
      maker_price tick Side.BUY bid ask = round_to_step bid tick ∧
      maker_price tick Side.SELL bid ask = round_to_step ask tick) ∧
    (bid ≥ ask →
      maker_price tick Side.BUY bid ask = round_to_step (ask - tick) tick ∧
      maker_price tick Side.SELL bid ask = round_to_step (bid + tick) tick) ∧
    maker_price (1/100) Side.BUY 100 (10001/100) = some 100 := by
  refine ⟨?_, ?_, ?_⟩
  · intro h
    have hnc : ¬ (ask ≤ bid) := not_le.mpr h
    constructor <;> simp [maker_price, ge_iff_le, hnc]
  · intro h
    have hc : ask ≤ bid := h
    constructor <;> simp [maker_price, ge_iff_le, hc]
  · norm_num [maker_price, round_to_step, truncQ]

/-- Witness for `maker_price_joins_touch`: the uncrossed book
bid=100.00/ask=100.01 at tick 0.01. -/
theorem maker_price_joins_touch_witness :
    (maker_price (1/100) Side.BUY 100 (10001/100)
        = round_to_step 100 (1/100) ∧
     maker_price (1/100) Side.SELL 100 (10001/100)
        = round_to_step (10001/100) (1/100)) ∧
    (maker_price (1/100) Side.BUY 100 100
        = round_to_step (100 - 1/100) (1/100) ∧
     maker_price (1/100) Side.SELL 100 100
        = round_to_step (100 + 1/100) (1/100)) :=
  ⟨(maker_price_joins_touch (1/100) 100 (10001/100)).1 (by norm_num),
   (maker_price_joins_touch (1/100) 100 100).2.1 (by norm_num)⟩

/-- A trigger order request as submitted to the exchange binding. -/
structure TriggerOrder where
  side : Side
  orderType : String
  stopPrice : ℚ
  closePosition : Bool
deriving DecidableEq

/-- `BinanceFutures.place_take_profit_market`: a `TAKE_PROFIT_MARKET`
order carrying `closePosition=True` and no quantity. -/
def place_take_profit_market (side : Side) (stop_price : ℚ) : TriggerOrder :=
  { side := side, orderType := "TAKE_PROFIT_MARKET", stopPrice := stop_price,
    closePosition := true }

/-- `BinanceFutures.place_stop_market`: a `STOP_MARKET` order carrying
`closePosition=True` and no quantity. -/
def place_stop_market (side : Side) (stop_price : ℚ) : TriggerOrder :=
  { side := side, orderType := "STOP_MARKET", stopPrice := stop_price,
    closePosition := true }

/-- The two protective legs submitted by `place_exit_orders`
(`None` = leg not placed). -/
structure ExitPlan where
  tp : Option TriggerOrder
  sl : Option TriggerOrder
deriving DecidableEq

/-- `close_side = "SELL" if side == "BUY" else "BUY"`. -/
def exit_close_side (side : Side) : Side :=
  if side = Side.BUY then Side.SELL else Side.BUY

/-- `round_to_step(p, tick) if p else None`: Python float truthiness
skips the leg when the computed trigger is exactly `0.0`; a decimal
failure inside the rounding propagates as an exception. -/
def price_str (tick : ℚ) : Option ℚ → Except String (Option ℚ)
  | none => .ok none
  | some p =>
      if p = 0 then .ok none
      else
        match round_to_step p tick with
        | none => .error "decimal division by zero"
        | some v => .ok (some v)

/-- `OrderManager.place_exit_orders`: compute the trigger prices from
the entry price (falling back to mid-of-book when the entry price is
unavailable), quantize them to the tick, and submit each enabled leg as
a full-position-closing trigger order.  Client-side placement failures
are swallowed by the source (`try/except` around each leg); the plan
records what is submitted. -/
def place_exit_orders (tp_enabled sl_enabled : Bool) (tp_pct sl_pct : ℚ)
    (tick_size : ℚ) (side : Side) (entry_price0 : ℚ)
    (book : Option (ℚ × ℚ)) : Except String ExitPlan :=
  let close_side := exit_close_side side
  let entry_price :=
    if entry_price0 ≤ 0 then
      match book with
      | some (bid, ask) => (bid + ask) / 2
      | none => 0
    else entry_price0
  let tp_on := tp_enabled && decide (0 < tp_pct)
  let sl_on := sl_enabled && decide (0 < sl_pct)
  if tp_on = false ∧ sl_on = false then .ok { tp := none, sl := none }
  else
    let tp_price : Option ℚ :=
      if 0 < entry_price then
        if side = Side.BUY then
          (if tp_on then some (entry_price * (1 + tp_pct)) else none)
        else
          (if tp_on then some (entry_price * (1 - tp_pct)) else none)
      else none
    let sl_price : Option ℚ :=
      if 0 < entry_price then
        if side = Side.BUY then
          (if sl_on then some (entry_price * (1 - sl_pct)) else none)
        else
          (if sl_on then some (entry_price * (1 + sl_pct)) else none)
      else none
    match price_str tick_size tp_price, price_str tick_size sl_price with
    | .error e, _ => .error e
    | .ok _, .error e => .error e
    | .ok tps, .ok sls =>
        .ok { tp := tps.map (fun v => place_take_profit_market close_side v),
              sl := sls.map (fun v => place_stop_market close_side v) }

theorem round_to_step_inv_nat' (v : ℚ) (n : ℕ) (hn : 0 < n) (hv : 0 ≤ v) :
    round_to_step v ((n : ℚ))⁻¹ = some ((⌊v * (n : ℚ)⌋ : ℚ) / (n : ℚ)) := by
  rw [← one_div]
  exact round_to_step_inv_nat v n hn hv

theorem price_str_none (tick : ℚ) : price_str tick none = .ok none := rfl

theorem price_str_pos (n : ℕ) (hn : 0 < n) (p : ℚ) (hp : 0 < p) :
    price_str (1 / (n : ℚ)) (some p)
      = .ok (some ((⌊p * (n : ℚ)⌋ : ℚ) / (n : ℚ))) := by
  show (if p = 0 then Except.ok none
      else
        match round_to_step p (1 / (n : ℚ)) with
        | none => Except.error "decimal division by zero"
        | some v => Except.ok (some v))
      = Except.ok (some ((⌊p * (n : ℚ)⌋ : ℚ) / (n : ℚ)))
  rw [if_neg (ne_of_gt hp), round_to_step_inv_nat p n hn hp.le]

/-- C7: for a positive entry price and sane percentages, each enabled
protective leg is submitted as a full-position-closing trigger order on
the side opposite the position, with the take-profit trigger at
`entry × (1 + pct)` for a long and `entry × (1 − pct)` for a short, the
stop-loss mirrored, and both triggers quantized to the price
increment. -/
theorem place_exit_orders_correct (tp_e sl_e : Bool) (tp_pct sl_pct : ℚ)
    (n : ℕ) (hn : 0 < n) (side : Side) (ep : ℚ) (book : Option (ℚ × ℚ))
    (hep : 0 < ep) (htp0 : 0 < tp_pct) (htp1 : tp_pct < 1)
    (hsl0 : 0 < sl_pct) (hsl1 : sl_pct < 1) :
    place_exit_orders tp_e sl_e tp_pct sl_pct (1 / (n : ℚ)) side ep book
      = .ok {
          tp := if tp_e then
              some (place_take_profit_market (exit_close_side side)
                ((⌊(if side = Side.BUY then ep * (1 + tp_pct)
                    else ep * (1 - tp_pct)) * (n : ℚ)⌋ : ℚ) / (n : ℚ)))
            else none,
          sl := if sl_e then
              some (place_stop_market (exit_close_side side)
                ((⌊(if side = Side.BUY then ep * (1 - sl_pct)
                    else ep * (1 + sl_pct)) * (n : ℚ)⌋ : ℚ) / (n : ℚ)))
            else none } := by
  have h1 : 0 < ep * (1 + tp_pct) := mul_pos hep (by linarith)
  have h2 : 0 < ep * (1 - tp_pct) := mul_pos hep (by linarith)
  have h3 : 0 < ep * (1 - sl_pct) := mul_pos hep (by linarith)
  have h4 : 0 < ep * (1 + sl_pct) := mul_pos hep (by linarith)
  rcases side <;> rcases tp_e <;> rcases sl_e <;>
    simp [place_exit_orders, price_str, not_le.mpr hep, hep, htp0, hsl0,
      h1.ne', h2.ne', h3.ne', h4.ne',
      round_to_step_inv_nat' _ n hn h1.le, round_to_step_inv_nat' _ n hn h2.le,
      round_to_step_inv_nat' _ n hn h3.le, round_to_step_inv_nat' _ n hn h4.le]

/-- Witness for `place_exit_orders_correct`: long entry at 100, 1% TP
and 2% SL, tick 0.01 — a `TAKE_PROFIT_MARKET` sell at 101 and a
`STOP_MARKET` sell at 98, both `closePosition`. -/
theorem place_exit_orders_correct_witness :
    place_exit_orders true true (1/100) (2/100) (1 / ((100 : ℕ) : ℚ))
        Side.BUY 100 none
      = .ok { tp := some { side := Side.SELL, orderType := "TAKE_PROFIT_MARKET",
                           stopPrice := 101, closePosition := true },
              sl := some { side := Side.SELL, orderType := "STOP_MARKET",
                           stopPrice := 98, closePosition := true } } := by
  have h := place_exit_orders_correct true true (1/100) (2/100) 100
    (by norm_num) Side.BUY 100 none (by norm_num) (by norm_num)
    (by norm_num) (by norm_num) (by norm_num)
  rw [h]
  norm_num [place_take_profit_market, place_stop_market, exit_close_side]

/-- `OrderManager._remaining_to_target`: target minus the
same-direction amount already held, clamped at zero. -/
def remaining_to_target (side : Side) (amt target : ℚ) : ℚ :=
  let current_same_dir := if side = Side.BUY then max amt 0 else max (-amt) 0
  max 0 (target - current_same_dir)

/-- `OrderManager._ensure_min_notional_qty`: bump the quantity up to the
minimum notional when `q * price` falls short; any failure inside the
guarded block returns the quantity unchanged (the source wraps the body
in `try/except`). -/
def ensure_min_notional_qty (min_notional step price q : ℚ) : ℚ :=
  if 0 < min_notional ∧ 0 < price ∧ q * price < min_notional then
    match round_up_to_step (min_notional / price) step with
    | some r => r
    | none => q
  else q

/-- The market-fallback sizing step of `OrderManager.open_postonly_maker`
(lines after the maker attempts are exhausted): compute the remainder,
treat a sub-half-step remainder as already filled (`.ok none` = no
market order), floor the remainder to the step, and re-check the
minimum notional against the current book (a failed book read leaves
the quantity unchanged). -/
def market_fallback_qty (side : Side) (amt target step min_notional : ℚ)
    (book : Option (ℚ × ℚ)) : Except String (Option ℚ) :=
  let remaining := remaining_to_target side amt target
  if remaining ≤ step / 2 then .ok none
  else
    match round_to_step remaining step with
    | none => .error "decimal division by zero"
    | some rem =>
        match book with
        | none => .ok (some rem)
        | some (bid, ask) =>
            let price_for_check := if side = Side.BUY then ask else bid
            .ok (some (ensure_min_notional_qty min_notional step price_for_check rem))

/-- The claim that the fallback order always equals the remainder to
within one increment fails on the code: the minimum-notional re-check
can raise it further.  With target 1.0, 0.6 already held, step 0.001,
price 10 and minNotional 5, the remainder is 0.4 but the fallback
order is 0.5. -/
theorem top_up_sizing_counterexample :
    market_fallback_qty Side.BUY (6/10) 1 (1/1000) 5 (some (10, 10))
        = .ok (some (1/2)) ∧
      remaining_to_target Side.BUY (6/10) 1 = 2/5 ∧
      ¬ ((1 : ℚ)/2 ≤ 2/5 + 1/1000) := by
  refine ⟨?_, ?_, by norm_num⟩
  · norm_num [market_fallback_qty, remaining_to_target, ensure_min_notional_qty,
      round_to_step, round_up_to_step, truncQ]
  · norm_num [remaining_to_target]

/-- C5 (amended): when the remainder's notional already meets the
exchange minimum, the market fallback is sized to the still-missing
quantity floored to the quantity increment — strictly within one
increment below the remainder, never the full target. -/
theorem top_up_sizing_amended (side : Side) (amt target : ℚ) (n : ℕ)
    (hn : 0 < n) (min_notional bid ask : ℚ)
    (hrem : 1 / (n : ℚ) / 2 < remaining_to_target side amt target)
    (hprice : 0 ≤ (if side = Side.BUY then ask else bid))
    (hmn : min_notional ≤ (remaining_to_target side amt target - 1 / (n : ℚ))
        * (if side = Side.BUY then ask else bid)) :
    market_fallback_qty side amt target (1 / (n : ℚ)) min_notional
        (some (bid, ask))
      = .ok (some ((⌊remaining_to_target side amt target * (n : ℚ)⌋ : ℚ)
          / (n : ℚ))) ∧
    remaining_to_target side amt target - 1 / (n : ℚ)
        < (⌊remaining_to_target side amt target * (n : ℚ)⌋ : ℚ) / (n : ℚ) ∧
    (⌊remaining_to_target side amt target * (n : ℚ)⌋ : ℚ) / (n : ℚ)
        ≤ remaining_to_target side amt target := by
  have hnQ : (0 : ℚ) < (n : ℚ) := by exact_mod_cast hn
  set R := remaining_to_target side amt target with hR
  have hstep_pos : (0 : ℚ) < 1 / (n : ℚ) := by positivity
  have hRpos : 0 < R := lt_trans (by positivity) hrem
  have hround : round_to_step R (1 / (n : ℚ))
      = some ((⌊R * (n : ℚ)⌋ : ℚ) / (n : ℚ)) :=
    round_to_step_inv_nat R n hn hRpos.le
  have hfloor_le : (⌊R * (n : ℚ)⌋ : ℚ) / (n : ℚ) ≤ R := by
    rw [div_le_iff₀ hnQ]
    exact Int.floor_le _
  have hfloor_gt : R - 1 / (n : ℚ) < (⌊R * (n : ℚ)⌋ : ℚ) / (n : ℚ) := by
    rw [sub_lt_iff_lt_add, div_add_div_same, lt_div_iff₀ hnQ]
    have := Int.lt_floor_add_one (R * (n : ℚ))
    linarith
  have hens : ensure_min_notional_qty min_notional (1 / (n : ℚ))
      (if side = Side.BUY then ask else bid)
      ((⌊R * (n : ℚ)⌋ : ℚ) / (n : ℚ)) = (⌊R * (n : ℚ)⌋ : ℚ) / (n : ℚ) := by
    unfold ensure_min_notional_qty
    rw [if_neg]
    rintro ⟨-, -, hlt⟩
    have hmul : (R - 1 / (n : ℚ)) * (if side = Side.BUY then ask else bid)
        ≤ (⌊R * (n : ℚ)⌋ : ℚ) / (n : ℚ) * (if side = Side.BUY then ask else bid) :=
      mul_le_mul_of_nonneg_right hfloor_gt.le hprice
    linarith
  refine ⟨?_, hfloor_gt, hfloor_le⟩
  unfold market_fallback_qty
  rw [if_neg (not_le.mpr hrem), ← hR, hround]
  simp only [hens]

/-- Witness for `top_up_sizing_amended`: 60% of a 1.0 target already
held, step 0.001, book at 100 — the fallback is exactly the remaining
0.4. -/
theorem top_up_sizing_amended_witness :
    market_fallback_qty Side.BUY (3/5) 1 (1 / ((1000 : ℕ) : ℚ)) 5
        (some (100, 100))
      = .ok (some ((⌊remaining_to_target Side.BUY (3/5) 1
          * ((1000 : ℕ) : ℚ)⌋ : ℚ) / ((1000 : ℕ) : ℚ))) ∧
    remaining_to_target Side.BUY (3/5) 1 - 1 / ((1000 : ℕ) : ℚ)
        < (⌊remaining_to_target Side.BUY (3/5) 1 * ((1000 : ℕ) : ℚ)⌋ : ℚ)
            / ((1000 : ℕ) : ℚ) ∧
    (⌊remaining_to_target Side.BUY (3/5) 1 * ((1000 : ℕ) : ℚ)⌋ : ℚ)
        / ((1000 : ℕ) : ℚ) ≤ remaining_to_target Side.BUY (3/5) 1 :=
  top_up_sizing_amended Side.BUY (3/5) 1 1000 (by norm_num) 5 100 100
    (by norm_num [remaining_to_target])
    (by norm_num)
    (by norm_num [remaining_to_target])

/-- The result dictionary returned by the opening flows
(`clientOrderId`, a random UUID, is omitted; `attempts` is `none` where
the source's dictionary carries no `attempts` key). -/
structure OpenResult where
  filled : Bool
  attempts : Option ℕ
  price : Option ℚ
  entryPrice : ℚ
  exits : ExitPlan
  mode : String
deriving DecidableEq

/-- `OrderManager._position_reached`: the position snapshot matched
against 99.9% of the target on the requested side. -/
def position_reached (side : Side) (target_qty amt : ℚ) : Bool :=
  if side = Side.BUY then decide (target_qty * (999/1000) ≤ amt)
  else decide (target_qty * (999/1000) ≤ -amt)

/-- `OrderManager.norm_qty`: default the quantity and floor it to the
quantity increment. -/
def norm_qty (qty_default step : ℚ) (qty : Option ℚ) : Option ℚ :=
  round_to_step (qty.getD qty_default) step

/-- Exchange observations consumed by one `open_market` call: the book
snapshot for the minimum-notional check (`none` = the guarded
`book_ticker` read failed), whether `place_market` succeeded (a failure
raises out of the call), and the entry price subsequently read. -/
structure MarketEnv where
  book : Option (ℚ × ℚ)
  place_ok : Bool
  entry_price : ℚ

/-- `OrderManager.open_market`.  `exitsOf ep` stands for the
`place_exit_orders(side, ep, qty_str)` call with the configured
runtime flags. -/
def open_market (side : Side) (qty : Option ℚ) (qty_default step min_notional : ℚ)
    (env : MarketEnv) (exitsOf : ℚ → Except String ExitPlan) :
    Except String OpenResult :=
  match norm_qty qty_default step qty with
  | none => .error "decimal division by zero"
  | some qty0 =>
      let _qty_submitted :=
        match env.book with
        | some (bid, ask) =>
            ensure_min_notional_qty min_notional step
              (if side = Side.BUY then ask else bid) qty0
        | none => qty0
      if env.place_ok = false then .error "place_market failed"
      else
        match exitsOf env.entry_price with
        | .error e => .error e
        | .ok exits =>
            .ok { filled := true, attempts := none, price := none,
                  entryPrice := env.entry_price, exits := exits,
                  mode := "market" }

/-- Exchange observations consumed by one iteration of the post-only
attempt loop: the book snapshot backing `maker_price` (`none` = the
unguarded `book_ticker` read raised), whether the post-only placement
was accepted (a rejection is caught and the loop continues), the
position snapshot governing the wait-for-fill poll, and the entry
price read on a fill. -/
structure AttemptEnv where
  book : Option (ℚ × ℚ)
  place_ok : Bool
  pos_amt : ℚ
  entry_price : ℚ

/-- Exchange observations consumed by one `open_postonly_maker` call
outside the attempt loop. -/
structure MakerEnv where
  book0 : Option (ℚ × ℚ)
  pos_amt0 : ℚ
  entry_price0 : ℚ
  attempts : List AttemptEnv
  pos_amt_fb : ℚ
  book_fb : Option (ℚ × ℚ)
  place_fb_ok : Bool
  wait_ep : ℚ
  ep_negligible : ℚ
  entry_price_fb : ℚ

/-- The post-only attempt loop of `OrderManager.open_postonly_maker`
(`for attempt in range(1, market_fallback_after + 1)`), one
`AttemptEnv` per iteration, `k` the 1-based attempt counter.
`.ok none` means every attempt was exhausted without reaching the
target. -/
def maker_attempts (side : Side) (tick step min_notional qty0 : ℚ)
    (exitsOf : ℚ → Except String ExitPlan) :
    List AttemptEnv → ℕ → Except String (Option OpenResult)
  | [], _ => .ok none
  | a :: rest, k =>
      match a.book with
      | none => .error "book_ticker failed"
      | some (bid, ask) =>
          match maker_price tick side bid ask with
          | none => .error "decimal division by zero"
          | some price =>
              let qty_try := ensure_min_notional_qty min_notional step price qty0
              if a.place_ok = false then
                maker_attempts side tick step min_notional qty0 exitsOf rest (k + 1)
              else if position_reached side qty_try a.pos_amt then
                match exitsOf a.entry_price with
                | .error e => .error e
                | .ok exits =>
                    .ok (some { filled := true, attempts := some k,
                                price := some price,
                                entryPrice := a.entry_price, exits := exits,
                                mode := "maker" })
              else
                maker_attempts side tick step min_notional qty0 exitsOf rest (k + 1)

/-- The market top-up fallback of `OrderManager.open_postonly_maker`
(run when all post-only attempts are exhausted): size the remainder via
`market_fallback_qty`; a negligible remainder returns in `maker` mode,
otherwise the market order is placed, `_wait_entry_info` /
`get_entry_price` supply the entry price, and the call returns in
`market_fallback` mode. -/
def market_fallback_flow (mfa : ℕ) (side : Side) (step min_notional : ℚ)
    (env : MakerEnv) (exitsOf : ℚ → Except String ExitPlan) (qty1 : ℚ) :
    Except String OpenResult :=
  match market_fallback_qty side env.pos_amt_fb qty1 step
      min_notional env.book_fb with
  | .error e => .error e
  | .ok none =>
      match exitsOf env.ep_negligible with
      | .error e => .error e
      | .ok exits =>
          .ok { filled := true, attempts := some mfa,
                price := none, entryPrice := env.ep_negligible,
                exits := exits, mode := "maker" }
  | .ok (some _rem_qty) =>
      if env.place_fb_ok = false then .error "place_market failed"
      else
        let ep := if env.wait_ep = 0 then env.entry_price_fb
                  else env.wait_ep
        match exitsOf ep with
        | .error e => .error e
        | .ok exits =>
            .ok { filled := true, attempts := some mfa,
                  price := none, entryPrice := ep, exits := exits,
                  mode := "market_fallback" }

/-- `OrderManager.open_postonly_maker` after quantity normalization
(`qty1` = the minimum-notional-adjusted `qty_str`): return immediately
when the target is already held, run the post-only attempts, then fall
back to the market top-up. -/
def open_postonly_rest (side : Side) (tick step min_notional : ℚ) (mfa : ℕ)
    (env : MakerEnv) (exitsOf : ℚ → Except String ExitPlan) (qty1 : ℚ) :
    Except String OpenResult :=
  if position_reached side qty1 env.pos_amt0 then
    match exitsOf env.entry_price0 with
    | .error e => .error e
    | .ok exits =>
        .ok { filled := true, attempts := some 0, price := none,
              entryPrice := env.entry_price0, exits := exits,
              mode := "maker" }
  else
    match maker_attempts side tick step min_notional qty1 exitsOf
        env.attempts 1 with
    | .error e => .error e
    | .ok (some res) => .ok res
    | .ok none => market_fallback_flow mfa side step min_notional env exitsOf qty1

/-- `OrderManager.open_postonly_maker`: post-only attempts with reprice,
then the market top-up fallback for the still-missing quantity. -/
def open_postonly_maker (side : Side) (qty : Option ℚ)
    (qty_default tick step min_notional : ℚ) (market_fallback_after : ℕ)
    (env : MakerEnv) (exitsOf : ℚ → Except String ExitPlan) :
    Except String OpenResult :=
  match norm_qty qty_default step qty with
  | none => .error "decimal division by zero"
  | some qty0 =>
      let qty1 :=
        match env.book0 with
        | some (bid, ask) =>
            ensure_min_notional_qty min_notional step
              (if side = Side.BUY then ask else bid) qty0
        | none => qty0
      open_postonly_rest side tick step min_notional market_fallback_after
        env exitsOf qty1

theorem maker_attempts_filled :
    ∀ (attempts : List AttemptEnv) (side : Side)
      (tick step min_notional qty0 : ℚ)
      (exitsOf : ℚ → Except String ExitPlan) (k : ℕ) (r : OpenResult),
      maker_attempts side tick step min_notional qty0 exitsOf attempts k
        = .ok (some r) → r.filled = true := by
  intro attempts
  induction attempts with
  | nil =>
      intro side tick step min_notional qty0 exitsOf k r h
      exact Option.noConfusion (Except.ok.inj h)
  | cons a rest ih =>
      intro side tick step min_notional qty0 exitsOf k r h
      rw [maker_attempts] at h
      rcases hb : a.book with _ | ⟨bid, ask⟩
      · simp only [hb] at h
        exact Except.noConfusion h
      · simp only [hb] at h
        rcases hmp : maker_price tick side bid ask with _ | price
        · simp only [hmp] at h
          exact Except.noConfusion h
        · simp only [hmp] at h
          by_cases hpl : a.place_ok = false
          · rw [if_pos hpl] at h
            exact ih _ _ _ _ _ _ _ _ h
          · rw [if_neg hpl] at h
            by_cases hpr : position_reached side
                (ensure_min_notional_qty min_notional step price qty0)
                a.pos_amt = true
            · rw [if_pos hpr] at h
              rcases hex : exitsOf a.entry_price with e | exits
              · simp only [hex] at h
                exact Except.noConfusion h
              · simp only [hex] at h
                rw [← Option.some.inj (Except.ok.inj h)]
            · rw [if_neg hpr] at h
              exact ih _ _ _ _ _ _ _ _ h

/-- C9: every result dictionary returned by a terminating `open_market`
or `open_postonly_maker` call carries `filled = true` — including the
market-fallback path, which never verifies that the order actually
filled — so `filled` does not indicate a confirmed fill. -/
theorem open_results_report_filled :
    (∀ (side : Side) (qty : Option ℚ) (qty_default step min_notional : ℚ)
        (env : MarketEnv) (exitsOf : ℚ → Except String ExitPlan)
        (r : OpenResult),
      open_market side qty qty_default step min_notional env exitsOf = .ok r →
      r.filled = true) ∧
    (∀ (side : Side) (qty : Option ℚ) (qty_default tick step min_notional : ℚ)
        (mfa : ℕ) (env : MakerEnv) (exitsOf : ℚ → Except String ExitPlan)
        (r : OpenResult),
      open_postonly_maker side qty qty_default tick step min_notional mfa env
          exitsOf = .ok r →
      r.filled = true) := by
  have hflow : ∀ (mfa : ℕ) (side : Side) (step min_notional : ℚ)
      (env : MakerEnv) (exitsOf : ℚ → Except String ExitPlan) (qty1 : ℚ)
      (r : OpenResult),
      market_fallback_flow mfa side step min_notional env exitsOf qty1 = .ok r →
      r.filled = true := by
    intro mfa side step min_notional env exitsOf qty1 r h
    rw [market_fallback_flow] at h
    rcases hfb : market_fallback_qty side env.pos_amt_fb qty1 step
        min_notional env.book_fb with e | oq
    · simp only [hfb] at h
      exact Except.noConfusion h
    · rcases oq with _ | rq
      · simp only [hfb] at h
        rcases hex : exitsOf env.ep_negligible with e | exits
        · simp only [hex] at h
          exact Except.noConfusion h
        · simp only [hex] at h
          rw [← Except.ok.inj h]
      · simp only [hfb] at h
        by_cases hp : env.place_fb_ok = false
        · rw [if_pos hp] at h
          exact Except.noConfusion h
        · rw [if_neg hp] at h
          rcases hex : exitsOf (if env.wait_ep = 0 then env.entry_price_fb
              else env.wait_ep) with e | exits
          · simp only [hex] at h
            exact Except.noConfusion h
          · simp only [hex] at h
            rw [← Except.ok.inj h]
  have hrest : ∀ (side : Side) (tick step min_notional : ℚ) (mfa : ℕ)
      (env : MakerEnv) (exitsOf : ℚ → Except String ExitPlan) (qty1 : ℚ)
      (r : OpenResult),
      open_postonly_rest side tick step min_notional mfa env exitsOf qty1
        = .ok r → r.filled = true := by
    intro side tick step min_notional mfa env exitsOf qty1 r h
    rw [open_postonly_rest] at h
    by_cases hpr : position_reached side qty1 env.pos_amt0 = true
    · rw [if_pos hpr] at h
      rcases hex : exitsOf env.entry_price0 with e | exits
      · simp only [hex] at h
        exact Except.noConfusion h
      · simp only [hex] at h
        rw [← Except.ok.inj h]
    · rw [if_neg hpr] at h
      rcases hma : maker_attempts side tick step min_notional qty1 exitsOf
          env.attempts 1 with e | ores
      · simp only [hma] at h
        exact Except.noConfusion h
      · rcases ores with _ | res
        · simp only [hma] at h
          exact hflow _ _ _ _ _ _ _ _ h
        · simp only [hma] at h
          rw [← Except.ok.inj h]
          exact maker_attempts_filled env.attempts _ _ _ _ _ _ _ _ hma
  constructor
  · intro side qty qty_default step min_notional env exitsOf r h
    rw [open_market] at h
    rcases hnq : norm_qty qty_default step qty with _ | qty0
    · simp only [hnq] at h
      exact Except.noConfusion h
    · simp only [hnq] at h
      by_cases hp : env.place_ok = false
      · rw [if_pos hp] at h
        exact Except.noConfusion h
      · rw [if_neg hp] at h
        rcases hex : exitsOf env.entry_price with e | exits
        · simp only [hex] at h
          exact Except.noConfusion h
        · simp only [hex] at h
          rw [← Except.ok.inj h]
  · intro side qty qty_default tick step min_notional mfa env exitsOf r h
    rw [open_postonly_maker] at h
    rcases hnq : norm_qty qty_default step qty with _ | qty0
    · simp only [hnq] at h
      exact Except.noConfusion h
    · simp only [hnq] at h
      exact hrest _ _ _ _ _ _ _ _ _ h

/-- Witness for `open_results_report_filled`: a market open, and a
maker open whose attempts all time out so the market fallback fires
while the observed position stays at zero — the result still reports
`filled = true`. -/
theorem open_results_report_filled_witness :
    ({ filled := true, attempts := none, price := none, entryPrice := 50,
       exits := { tp := none, sl := none }, mode := "market" } : OpenResult).filled
        = true ∧
    ({ filled := true, attempts := some 1, price := none, entryPrice := 0,
       exits := { tp := none, sl := none },
       mode := "market_fallback" } : OpenResult).filled = true := by
  constructor
  · refine open_results_report_filled.1 Side.BUY none 1 0 0
      { book := none, place_ok := true, entry_price := 50 }
      (fun _ => .ok { tp := none, sl := none }) _ ?_
    rfl
  · refine open_results_report_filled.2 Side.BUY none 1 (1/100) 0 0 1
      { book0 := none, pos_amt0 := 0, entry_price0 := 0,
        attempts := [{ book := some (100, 10001/100), place_ok := true,
                       pos_amt := 0, entry_price := 0 }],
        pos_amt_fb := 0, book_fb := none, place_fb_ok := true, wait_ep := 0,
        ep_negligible := 0, entry_price_fb := 0 }
      (fun _ => .ok { tp := none, sl := none }) _ ?_
    norm_num [open_postonly_maker, open_postonly_rest, market_fallback_flow,
      norm_qty, round_to_step, truncQ, position_reached, maker_attempts,
      maker_price, ensure_min_notional_qty, market_fallback_qty,
      remaining_to_target]

/-!
## `OrderManager.execute_signal`

The orchestration layer: parse the side string, best-effort cancel of
stale exit orders, soft unwind of any opposite position, then open via
market (spam mode) or post-only-with-fallback.  The sub-calls'
exchange interactions are abstracted by their outcomes; the list of
`Action`s records which operations were attempted, in order.
-/

inductive Action
  | cancelAll
  | closeOpposite (side : Side)
  | closeMarket (side : Side)
  | openMarket (side : Side)
  | openMaker (side : Side)
deriving DecidableEq

/-- ASCII lowering: the behaviour of Python's `str.lower()` on the
side strings this endpoint receives. -/
def lower_str (s : String) : String :=
  String.mk (s.data.map Char.toLower)

/-- The side-parsing prologue of `execute_signal`:
`"long"/"buy" → BUY`, `"short"/"sell" → SELL` after lowering, anything
else raises `ValueError` (modelled as `none`). -/
def parse_side (s : String) : Option Side :=
  let l := lower_str s
  if l = "long" ∨ l = "buy" then some Side.BUY
  else if l = "short" ∨ l = "sell" then some Side.SELL
  else none

/-- `OrderManager.execute_signal`: after side parsing, cancel exit
orders (best effort), try `close_opposite_if_any` and on *any* failure
fall back to `close_market`, swallowing its failure too, then open.
`close_opposite_outcome`/`close_market_outcome` are the outcomes the
sub-calls would produce; `open_market_outcome`/`open_maker_outcome`
the outcome of the respective opening flow.  Returns the call outcome
paired with the actions attempted against the exchange (empty on the
`ValueError` path, which precedes any exchange interaction). -/
def execute_signal (side_str : String)
    (close_opposite_outcome close_market_outcome : Except String Unit)
    (spam_mode : Bool)
    (open_market_outcome open_maker_outcome : Except String OpenResult) :
    Except String OpenResult × List Action :=
  match parse_side side_str with
  | none => (.error ("Unknown side: " ++ side_str), [])
  | some side =>
      let acts :=
        match close_opposite_outcome with
        | .ok _ => [Action.cancelAll, Action.closeOpposite side]
        | .error _ =>
            match close_market_outcome with
            | .ok _ => [Action.cancelAll, Action.closeOpposite side,
                        Action.closeMarket side]
            | .error _ => [Action.cancelAll, Action.closeOpposite side,
                           Action.closeMarket side]
      if spam_mode then (open_market_outcome, acts ++ [Action.openMarket side])
      else (open_maker_outcome, acts ++ [Action.openMaker side])

/-- The claim that an exhausted unwind budget makes `execute_signal`
fail is violated: with `close_opposite_if_any` raising its
budget-exhaustion `RuntimeError` and even the `close_market` fallback
failing, the call still returns the open-step result successfully. -/
theorem unwind_exhaustion_counterexample :
    (execute_signal "long"
        (.error "Failed to close opposite position in time")
        (.error "close_market failed") false
        (.ok { filled := true, attempts := none, price := none, entryPrice := 0,
               exits := { tp := none, sl := none }, mode := "market" })
        (.ok { filled := true, attempts := none, price := none, entryPrice := 0,
               exits := { tp := none, sl := none }, mode := "maker" }))
      = (.ok { filled := true, attempts := none, price := none, entryPrice := 0,
               exits := { tp := none, sl := none }, mode := "maker" },
         [Action.cancelAll, Action.closeOpposite Side.BUY,
          Action.closeMarket Side.BUY, Action.openMaker Side.BUY]) := by
  rfl

/-- C1 (amended): an error from the opposite-position unwind is caught
inside `execute_signal`, which attempts a best-effort `close_market`
and proceeds to the open step regardless; the call's outcome is the
open step's outcome, and the unwind error is never propagated. -/
theorem unwind_error_swallowed (side_str : String) (side : Side) (e : String)
    (close_market_outcome : Except String Unit) (spam_mode : Bool)
    (omk opm : Except String OpenResult)
    (hside : parse_side side_str = some side) :
    (execute_signal side_str (.error e) close_market_outcome spam_mode
        omk opm).1 = (if spam_mode then omk else opm) ∧
    Action.closeMarket side ∈
      (execute_signal side_str (.error e) close_market_outcome spam_mode
        omk opm).2 ∧
    (if spam_mode then Action.openMarket side else Action.openMaker side) ∈
      (execute_signal side_str (.error e) close_market_outcome spam_mode
        omk opm).2 := by
  rw [execute_signal, hside]
  rcases close_market_outcome with e' | u <;> rcases spam_mode <;> simp

/-- Witness for `unwind_error_swallowed`: a `"long"` signal in calm
mode with both close calls failing. -/
theorem unwind_error_swallowed_witness :
    (execute_signal "long"
        (.error "Failed to close opposite position in time")
        (.error "close_market failed") false
        (.ok { filled := true, attempts := none, price := none, entryPrice := 0,
               exits := { tp := none, sl := none }, mode := "market" })
        (.ok { filled := true, attempts := none, price := none, entryPrice := 0,
               exits := { tp := none, sl := none }, mode := "maker" })).1
      = (if false then
           (.ok { filled := true, attempts := none, price := none,
                  entryPrice := 0, exits := { tp := none, sl := none },
                  mode := "market" } : Except String OpenResult)
         else
           .ok { filled := true, attempts := none, price := none,
                 entryPrice := 0, exits := { tp := none, sl := none },
                 mode := "maker" }) ∧
    Action.closeMarket Side.BUY ∈
      (execute_signal "long"
        (.error "Failed to close opposite position in time")
        (.error "close_market failed") false
        (.ok { filled := true, attempts := none, price := none, entryPrice := 0,
               exits := { tp := none, sl := none }, mode := "market" })
        (.ok { filled := true, attempts := none, price := none, entryPrice := 0,
               exits := { tp := none, sl := none }, mode := "maker" })).2 ∧
    (if false then Action.openMarket Side.BUY
     else Action.openMaker Side.BUY) ∈
      (execute_signal "long"
        (.error "Failed to close opposite position in time")
        (.error "close_market failed") false
        (.ok { filled := true, attempts := none, price := none, entryPrice := 0,
               exits := { tp := none, sl := none }, mode := "market" })
        (.ok { filled := true, attempts := none, price := none, entryPrice := 0,
               exits := { tp := none, sl := none }, mode := "maker" })).2 :=
  unwind_error_swallowed "long" Side.BUY
    "Failed to close opposite position in time"
    (.error "close_market failed") false _ _ (by decide)

/-- C10: side strings are accepted case-insensitively — anything
lowering to `"long"`/`"buy"` maps to `BUY`, to `"short"`/`"sell"` maps
to `SELL` — and any other side string makes `execute_signal` raise
`ValueError` with an empty action list: no cancel and no order ever
reaches the exchange on that path. -/
theorem side_parsing_atomic :
    (∀ s : String, (lower_str s = "long" ∨ lower_str s = "buy") →
        parse_side s = some Side.BUY) ∧
    (∀ s : String, (lower_str s = "short" ∨ lower_str s = "sell") →
        parse_side s = some Side.SELL) ∧
    (∀ (s : String) (co cm : Except String Unit) (spam : Bool)
        (om pm : Except String OpenResult),
      parse_side s = none →
      execute_signal s co cm spam om pm
        = (.error ("Unknown side: " ++ s), [])) := by
  refine ⟨?_, ?_, ?_⟩
  · intro s h
    rw [parse_side]
    rw [if_pos h]
  · intro s h
    rw [parse_side]
    rw [if_neg ?_, if_pos h]
    rintro (h1 | h1) <;> rcases h with h2 | h2 <;> rw [h1] at h2 <;>
      exact absurd h2 (by decide)
  · intro s co cm spam om pm h
    rw [execute_signal, h]

/-- Witness for `side_parsing_atomic`: mixed-case `"LoNg"` and
`"SELL"` parse; `"flat"` raises before any action. -/
theorem side_parsing_atomic_witness :
    parse_side "LoNg" = some Side.BUY ∧
    parse_side "SELL" = some Side.SELL ∧
    execute_signal "flat" (.ok ()) (.ok ()) false
        (.error "unused") (.error "unused")
      = (.error ("Unknown side: " ++ "flat"), []) :=
  ⟨side_parsing_atomic.1 "LoNg" (by decide),
   side_parsing_atomic.2.1 "SELL" (by decide),
   side_parsing_atomic.2.2 "flat" (.ok ()) (.ok ()) false
     (.error "unused") (.error "unused") (by decide)⟩

end PostOnlyBot
